import Mathlib

/-!
# Verification of the requestatron resource-report engine

Shallow embedding of `src/requestatron/main.py`: the quantity parsers
`parse_memory` / `parse_cpu`, and the aggregation loop of `main` that builds
the nested namespace → pod → container report, merges spec and usage data and
computes utilization ratios.

Python values that flow through the parsers are modelled by `PyVal`
(`None`, `int`, `float` — modelled exactly as a rational, `str`), Python
exceptions by `PyErr`, and fallible code returns `Except PyErr _`.
-/

set_option maxRecDepth 8000
set_option synthInstance.maxSize 2048
set_option synthInstance.maxHeartbeats 1000000

namespace Requestatron

/-- A Python value as used by the program: `None`, an `int`, a `float`
(modelled exactly as a rational: all arithmetic the program performs on
floats — division by powers of two and by small integers — is modelled
exactly), or a `str`. -/
inductive PyVal where
  | none
  | int (n : ℤ)
  | float (q : ℚ)
  | str (s : String)
deriving DecidableEq, Repr

/-- The Python exceptions the modelled code can raise. `valueError` is the
failure of `int(...)` (the spec's `ParseError`); `attributeError` arises from
calling `.endswith` on a non-string; `keyError` from indexing a dict with a
missing key; `typeError` from arithmetic on non-numeric values;
`zeroDivisionError` from dividing by zero. -/
inductive PyErr where
  | valueError
  | attributeError
  | keyError
  | typeError
  | zeroDivisionError
deriving DecidableEq, Repr

deriving instance DecidableEq for Except

/-- Python truthiness of the values above: `None`, `0`, `0.0` and `""` are
falsy, everything else truthy. -/
def truthy : PyVal → Bool
  | PyVal.none => false
  | PyVal.int n => decide (n ≠ 0)
  | PyVal.float q => decide (q ≠ 0)
  | PyVal.str s => decide (s ≠ "")

/-- ASCII decimal digit test (the digits accepted by Python `int(...)` in the
inputs this program sees). -/
def isDigitC (c : Char) : Bool := 48 ≤ c.toNat && c.toNat ≤ 57

/-- Tail of Python's integer-literal digit grammar: digits with single
underscores allowed strictly between digits (`1_000` is valid, `1__0`, `1_`
are not). -/
def digitsTail : List Char → Bool
  | [] => true
  | c :: rest =>
    if c = '_' then
      match rest with
      | [] => false
      | d :: rest2 => isDigitC d && digitsTail rest2
    else
      isDigitC c && digitsTail rest

/-- A valid (unsigned) digit group for Python `int(...)`: nonempty, starts
with a digit, underscores only between digits. -/
def digitsUnd : List Char → Bool
  | [] => false
  | c :: rest => isDigitC c && digitsTail rest

/-- Numeric value of a digit group (underscores ignored). -/
def digitsVal (l : List Char) : ℤ :=
  (l.filter (fun c => c ≠ '_')).foldl (fun acc c => 10 * acc + ((c.toNat : ℤ) - 48)) 0

/-- Python `str.strip()`-style whitespace trimming on both ends, as applied
by `int(...)` before parsing. -/
def pyTrim (l : List Char) : List Char :=
  ((l.dropWhile Char.isWhitespace).reverse.dropWhile Char.isWhitespace).reverse

/-- Python `int(s)` on the character list of `s`: optional surrounding
whitespace, optional sign, then a digit group; `Option.none` models
`ValueError`. -/
def pyIntChars (l : List Char) : Option ℤ :=
  match pyTrim l with
  | [] => Option.none
  | c :: rest =>
    if c = '+' then
      if digitsUnd rest then some (digitsVal rest) else Option.none
    else if c = '-' then
      if digitsUnd rest then some (-(digitsVal rest)) else Option.none
    else
      if digitsUnd (c :: rest) then some (digitsVal (c :: rest)) else Option.none

/-- Fuel-driven worker for `removeAll`; the fuel is an upper bound on the
list length, so the fuel-exhausted branch is unreachable in actual use. -/
def removeAllF (pat : List Char) : Nat → List Char → List Char
  | _, [] => []
  | 0, l => l
  | fuel + 1, c :: rest =>
    if pat ≠ [] ∧ pat.isPrefixOf (c :: rest) then
      removeAllF pat fuel (rest.drop (pat.length - 1))
    else
      c :: removeAllF pat fuel rest

/-- Python `str.replace(pat, '')`: delete every non-overlapping occurrence of
`pat`, scanning left to right. (The program only ever replaces with the empty
string.) -/
def removeAll (pat l : List Char) : List Char := removeAllF pat l.length l

/-- Python `str.endswith(suf)`. -/
def pyEndsWithL (l suf : List Char) : Bool := decide (suf <:+ l)

/-- Embedding of `parse_memory` (main.py lines 12–35): truthy strings are
dispatched on the `Ki`/`Mi`/`Gi` suffix (each branch strips the suffix via
`replace` and calls `int(...)`), a plain truthy string is parsed as integer
KiB, a truthy non-string raises `AttributeError` (``.endswith`` is called on
it before the `isinstance` check, so the pass-through `else` branch is
unreachable for truthy values), and a falsy value is returned unchanged. -/
def parse_memory (v : PyVal) : Except PyErr PyVal :=
  if truthy v then
    match v with
    | PyVal.str s =>
      let l := s.toList
      if pyEndsWithL l ['K', 'i'] then
        match pyIntChars (removeAll ['K', 'i'] l) with
        | some n => Except.ok (PyVal.int n)
        | Option.none => Except.error PyErr.valueError
      else if pyEndsWithL l ['M', 'i'] then
        match pyIntChars (removeAll ['M', 'i'] l) with
        | some n => Except.ok (PyVal.int (1024 * n))
        | Option.none => Except.error PyErr.valueError
      else if pyEndsWithL l ['G', 'i'] then
        match pyIntChars (removeAll ['G', 'i'] l) with
        | some n => Except.ok (PyVal.int (1024 * 1024 * n))
        | Option.none => Except.error PyErr.valueError
      else
        match pyIntChars l with
        | some n => Except.ok (PyVal.int n)
        | Option.none => Except.error PyErr.valueError
    | _ => Except.error PyErr.attributeError
  else
    Except.ok v

/-- Embedding of `parse_cpu` (main.py lines 37–59): truthy strings are
dispatched on the `m`/`u`/`n` suffix; `m` keeps the parsed integer, `u`
computes `int(x / 1024)` (true division then truncation toward zero), `n`
computes the float `x / (1024 * 1024)` (kept fractional), a plain truthy
string is multiplied by 1024, a truthy non-string raises `AttributeError`
(same unreachable `else` as in `parse_memory`), and a falsy value is
returned unchanged. The float `x / (1024 * 1024)` is modelled as the exact
rational `mkRat x (1024 * 1024)` (the quotient by a power of two is exact in
double precision for all realistic magnitudes). -/
def parse_cpu (v : PyVal) : Except PyErr PyVal :=
  if truthy v then
    match v with
    | PyVal.str s =>
      let l := s.toList
      if pyEndsWithL l ['m'] then
        match pyIntChars (removeAll ['m'] l) with
        | some n => Except.ok (PyVal.int n)
        | Option.none => Except.error PyErr.valueError
      else if pyEndsWithL l ['u'] then
        match pyIntChars (removeAll ['u'] l) with
        | some n => Except.ok (PyVal.int (Int.tdiv n 1024))
        | Option.none => Except.error PyErr.valueError
      else if pyEndsWithL l ['n'] then
        match pyIntChars (removeAll ['n'] l) with
        | some n => Except.ok (PyVal.float (mkRat n (1024 * 1024)))
        | Option.none => Except.error PyErr.valueError
      else
        match pyIntChars l with
        | some n => Except.ok (PyVal.int (1024 * n))
        | Option.none => Except.error PyErr.valueError
    | _ => Except.error PyErr.attributeError
  else
    Except.ok v


/-!
## The aggregator (`main`, lines 84–143)

`main` builds a nested Python dict `output[namespace][pod][container]` of
per-container records.  Python dicts preserve insertion order, so every
dict level is modelled as an association list; `alSet` updates an existing
key in place (keeping its position, as Python does) and appends a new key at
the end.  The container record itself has a fixed set of ten possible keys,
so it is modelled as a structure of ten optional fields (`Option.none` =
key absent from the dict).
-/

/-- One per-container record of the report: each field models the presence
(and value) of the corresponding dict key. -/
structure Record where
  cpu_limits : Option PyVal := Option.none
  memory_limits : Option PyVal := Option.none
  cpu_requests : Option PyVal := Option.none
  memory_requests : Option PyVal := Option.none
  memory_usage : Option PyVal := Option.none
  cpu_usage : Option PyVal := Option.none
  cpu_requests_ratio : Option PyVal := Option.none
  cpu_limits_ratio : Option PyVal := Option.none
  memory_requests_ratio : Option PyVal := Option.none
  memory_limits_ratio : Option PyVal := Option.none
deriving DecidableEq, Repr

/-- A `resources.limits` or `resources.requests` dict: `.get('cpu')` /
`.get('memory')` return `None` (`PyVal.none`) when the key is missing. -/
structure ResourceDict where
  cpu : PyVal := PyVal.none
  memory : PyVal := PyVal.none
deriving DecidableEq, Repr

/-- A container's `resources` object; `limits`/`requests` are `Option.none`
when the attribute is `None` (or an empty, hence falsy, dict — both take the
same branch in the code). -/
structure Resources where
  limits : Option ResourceDict := Option.none
  requests : Option ResourceDict := Option.none
deriving DecidableEq, Repr

/-- A container of `pod.spec.containers`; `resources = Option.none` models a
falsy `container.resources`. -/
structure ContainerSpec where
  name : String
  resources : Option Resources := Option.none
deriving DecidableEq, Repr

/-- A pod returned by the spec source (`list_pod_for_all_namespaces`). -/
structure Pod where
  ns : String
  name : String
  containers : List ContainerSpec
deriving DecidableEq, Repr

/-- One entry of `podmetrics['containers']`: the container name and the two
raw usage quantities. -/
structure MetricContainer where
  name : String
  usageCpu : PyVal
  usageMemory : PyVal
deriving DecidableEq, Repr

/-- The usage source: per (namespace, pod name) either the metric containers
or `Option.none`, which models `get_namespaced_custom_object` raising
`ApiException`. -/
abbrev UsageSource := String → String → Option (List MetricContainer)

/-- Ordered association list: the model of one Python dict level. -/
abbrev AList (α : Type) := List (String × α)

/-- Dict lookup (first — and by construction only — binding of the key). -/
def alGet {α : Type} : AList α → String → Option α
  | [], _ => Option.none
  | (k', v) :: rest, k => if k' = k then some v else alGet rest k

/-- Dict assignment `d[k] = v`: replaces in place (keeping insertion
position) or appends a fresh binding at the end, exactly as a Python dict. -/
def alSet {α : Type} : AList α → String → α → AList α
  | [], k, v => [(k, v)]
  | (k', v') :: rest, k, v =>
    if k' = k then (k, v) :: rest else (k', v') :: alSet rest k v

/-- Container dict of one pod: container name → record. -/
abbrev CDict := AList Record

/-- Namespace dict: pod name → container dict. -/
abbrev NsDict := AList CDict

/-- The whole report: namespace → namespace dict. -/
abbrev Report := AList NsDict

/-- The numeric (Python `int`/`float`) reading of a value, used by the ratio
arithmetic; non-numeric values have none. -/
def asRat : PyVal → Option ℚ
  | PyVal.int n => some (n : ℚ)
  | PyVal.float q => some q
  | _ => Option.none

/-- Python `int(q)` on the exact value of a float/int expression: truncation
toward zero. -/
def truncRat (q : ℚ) : ℤ := if 0 ≤ q then ⌊q⌋ else ⌈q⌉

/-- Truthiness of a dict field fetched with `.get(key)`: a missing key gives
`None`, which is falsy. -/
def truthyOpt : Option PyVal → Bool
  | some v => truthy v
  | Option.none => false

/-- The expression `int(100 * usage / denominator)` (lines 124/127/130/133):
`TypeError` when either operand is non-numeric (`None` or a string),
`ZeroDivisionError` when the denominator is zero, otherwise the exact
quotient truncated toward zero, computed here on the rationals'
numerators/denominators so that it stays kernel-computable. -/
def pyRatioVal (u d : PyVal) : Except PyErr ℤ :=
  match asRat u, asRat d with
  | some uq, some dq =>
    if dq = 0 then Except.error PyErr.zeroDivisionError
    else Except.ok (Int.tdiv (100 * uq.num * (dq.den : ℤ)) ((uq.den : ℤ) * dq.num))
  | _, _ => Except.error PyErr.typeError

/-- One guarded ratio assignment, e.g. lines 123–124: if the denominator
field (read with `.get`) is truthy, compute `int(100 * usage / den)` and set
the ratio field; otherwise leave the record unchanged.  The direct
`['..._usage']` access raises `KeyError` when the usage key is absent. -/
def ratioStep (r : Record) (den use : Option PyVal) (set : Record → ℤ → Record) :
    Except PyErr Record :=
  if truthyOpt den then
    match use, den with
    | some u, some d0 =>
      match pyRatioVal u d0 with
      | Except.error e => Except.error e
      | Except.ok z => Except.ok (set r z)
    | _, _ => Except.error PyErr.keyError
  else
    Except.ok r

/-- Exception-propagating sequencing, the shape of every `try`-free
statement sequence in `main`. -/
def exBind (x : Except PyErr Record) (f : Record → Except PyErr Record) :
    Except PyErr Record :=
  match x with
  | Except.error e => Except.error e
  | Except.ok r => f r

/-- Line 124: store `cpu_requests_ratio`. -/
def setCpuReqRatio (r : Record) (z : ℤ) : Record :=
  { r with cpu_requests_ratio := some (PyVal.int z) }

/-- Line 127: store `cpu_limits_ratio`. -/
def setCpuLimRatio (r : Record) (z : ℤ) : Record :=
  { r with cpu_limits_ratio := some (PyVal.int z) }

/-- Line 130: store `memory_requests_ratio`. -/
def setMemReqRatio (r : Record) (z : ℤ) : Record :=
  { r with memory_requests_ratio := some (PyVal.int z) }

/-- Line 133: store `memory_limits_ratio`. -/
def setMemLimRatio (r : Record) (z : ℤ) : Record :=
  { r with memory_limits_ratio := some (PyVal.int z) }

/-- The record updates of the usage loop body (lines 118–133) for one metric
container, given the record `r0` found in the dict and the two parsed usage
values: set `memory_usage` and `cpu_usage`, then the four guarded ratio
assignments in program order.  The intermediate dict states between the
single-threaded mutations are unobservable (an exception aborts the whole
run), so the updates are collapsed onto the record. -/
def usageRecord (r0 : Record) (mu cu : PyVal) : Except PyErr Record :=
  let r1 := { r0 with memory_usage := some mu, cpu_usage := some cu }
  exBind (ratioStep r1 r1.cpu_requests r1.cpu_usage setCpuReqRatio) (fun r2 =>
    exBind (ratioStep r2 r2.cpu_limits r2.cpu_usage setCpuLimRatio) (fun r3 =>
      exBind (ratioStep r3 r3.memory_requests r3.memory_usage setMemReqRatio) (fun r4 =>
        ratioStep r4 r4.memory_limits r4.memory_usage setMemLimRatio)))

/-- One iteration of the usage loop (lines 116–133): parse the memory usage
(the right-hand side of line 118 is evaluated first), look the container up
in the pod's dict — `KeyError` if the spec loop never created it —, parse
the cpu usage, apply the record updates, store the result. -/
def applyUsage (d : CDict) (mc : MetricContainer) : Except PyErr CDict :=
  match parse_memory mc.usageMemory with
  | Except.error e => Except.error e
  | Except.ok mu =>
    match alGet d mc.name with
    | Option.none => Except.error PyErr.keyError
    | some r0 =>
      match parse_cpu mc.usageCpu with
      | Except.error e => Except.error e
      | Except.ok cu =>
        match usageRecord r0 mu cu with
        | Except.error e => Except.error e
        | Except.ok r => Except.ok (alSet d mc.name r)

/-- The record built by the spec loop body for one container (lines
100–109): start from the fresh `{}` of line 100, fill the limits fields when
`container.resources.limits` is truthy (cpu first, then memory), then the
requests fields likewise. -/
def specRecord (c : ContainerSpec) : Except PyErr Record :=
  match c.resources with
  | Option.none => Except.ok {}
  | some res =>
    let afterLimits : Except PyErr Record :=
      match res.limits with
      | Option.none => Except.ok {}
      | some lim =>
        match parse_cpu lim.cpu with
        | Except.error e => Except.error e
        | Except.ok cl =>
          match parse_memory lim.memory with
          | Except.error e => Except.error e
          | Except.ok ml =>
            Except.ok { cpu_limits := some cl, memory_limits := some ml }
    match afterLimits with
    | Except.error e => Except.error e
    | Except.ok r =>
      match res.requests with
      | Option.none => Except.ok r
      | some req =>
        match parse_cpu req.cpu with
        | Except.error e => Except.error e
        | Except.ok cr =>
          match parse_memory req.memory with
          | Except.error e => Except.error e
          | Except.ok mr =>
            Except.ok { r with cpu_requests := some cr, memory_requests := some mr }

/-- The spec loop (lines 99–109) over the declared containers of a pod,
threading the pod's container dict. -/
def specFold : List ContainerSpec → CDict → Except PyErr CDict
  | [], d => Except.ok d
  | c :: cs, d =>
    match specRecord c with
    | Except.error e => Except.error e
    | Except.ok r => specFold cs (alSet d c.name r)

/-- The usage loop (lines 116–133) over the metric containers of a pod. -/
def usageFold : List MetricContainer → CDict → Except PyErr CDict
  | [], d => Except.ok d
  | mc :: mcs, d =>
    match applyUsage d mc with
    | Except.error e => Except.error e
    | Except.ok d' => usageFold mcs d'

/-- The container dict a single pod iteration produces: the spec loop on the
fresh dict of line 96/100, then — unless the metrics fetch raises
`ApiException` (`Option.none`), which the `except ... continue` of lines
114–115 swallows — the usage loop. -/
def podDict (fetch : UsageSource) (p : Pod) : Except PyErr CDict :=
  match specFold p.containers [] with
  | Except.error e => Except.error e
  | Except.ok d =>
    match fetch p.ns p.name with
    | Option.none => Except.ok d
    | some mcs => usageFold mcs d

/-- Lines 91–96: make sure `output[ns]` exists (created empty on `KeyError`)
and assign `output[ns][pod] = d` (the fresh per-pod dict, here already fully
built). -/
def setPod (out : Report) (ns pd : String) (d : CDict) : Report :=
  match alGet out ns with
  | some nsd => alSet out ns (alSet nsd pd d)
  | Option.none => alSet out ns (alSet [] pd d)

/-- One iteration of the pod loop (lines 89–133). -/
def processPod (fetch : UsageSource) (out : Report) (p : Pod) : Except PyErr Report :=
  match podDict fetch p with
  | Except.error e => Except.error e
  | Except.ok d => Except.ok (setPod out p.ns p.name d)

/-- The pod loop threaded over the output dict. -/
def aggAux (fetch : UsageSource) : List Pod → Report → Except PyErr Report
  | [], out => Except.ok out
  | p :: ps, out =>
    match processPod fetch out p with
    | Except.error e => Except.error e
    | Except.ok out' => aggAux fetch ps out'

/-- `Aggregate(specSource, usageSource)`: the whole aggregation pass of
`main`, from the empty output dict.  The spec source is the pod list, the
usage source the fetch function. -/
def aggregate (fetch : UsageSource) (pods : List Pod) : Except PyErr Report :=
  aggAux fetch pods []

/-- The per-pod dict when the usage block is processed *before* the spec
block (the hypothetical order of claim C9): the usage loop runs on the fresh
empty dict of line 96, then the spec loop runs over it. -/
def podDictRev (fetch : UsageSource) (p : Pod) : Except PyErr CDict :=
  match (match fetch p.ns p.name with
         | Option.none => Except.ok ([] : CDict)
         | some mcs => usageFold mcs []) with
  | Except.error e => Except.error e
  | Except.ok d => specFold p.containers d

/-- One pod-loop iteration in usage-before-spec order. -/
def processPodRev (fetch : UsageSource) (out : Report) (p : Pod) : Except PyErr Report :=
  match podDictRev fetch p with
  | Except.error e => Except.error e
  | Except.ok d => Except.ok (setPod out p.ns p.name d)

/-- The pod loop in usage-before-spec order. -/
def aggAuxRev (fetch : UsageSource) : List Pod → Report → Except PyErr Report
  | [], out => Except.ok out
  | p :: ps, out =>
    match processPodRev fetch out p with
    | Except.error e => Except.error e
    | Except.ok out' => aggAuxRev fetch ps out'

/-- Aggregation with the usage source processed before the spec source. -/
def aggregateRev (fetch : UsageSource) (pods : List Pod) : Except PyErr Report :=
  aggAuxRev fetch pods []

/-- Two-level lookup `output[ns][pod]`. -/
def alGet2 (out : Report) (ns pd : String) : Option CDict :=
  match alGet out ns with
  | some nsd => alGet nsd pd
  | Option.none => Option.none

/-- Three-level lookup `output[ns][pod][container]`. -/
def lookup3 (out : Report) (ns pd cn : String) : Option Record :=
  match alGet2 out ns pd with
  | some d => alGet d cn
  | Option.none => Option.none

/-- One key of the emitted JSON object: present fields yield one key/value
pair (a `PyVal.none` value prints as `null`), absent fields yield nothing. -/
def jsonOpt (n : String) (o : Option PyVal) : List (String × PyVal) :=
  match o with
  | some v => [(n, v)]
  | Option.none => []

/-- The key/value pairs `json.dumps` emits for one container record, in the
dict's insertion order (the order the assignments in `main` can first create
the keys).  A key is emitted exactly when it is present; a present `None`
value is emitted as JSON `null`. -/
def jsonItems (r : Record) : List (String × PyVal) :=
  jsonOpt "cpu_limits" r.cpu_limits ++
  jsonOpt "memory_limits" r.memory_limits ++
  jsonOpt "cpu_requests" r.cpu_requests ++
  jsonOpt "memory_requests" r.memory_requests ++
  jsonOpt "memory_usage" r.memory_usage ++
  jsonOpt "cpu_usage" r.cpu_usage ++
  jsonOpt "cpu_requests_ratio" r.cpu_requests_ratio ++
  jsonOpt "cpu_limits_ratio" r.cpu_limits_ratio ++
  jsonOpt "memory_requests_ratio" r.memory_requests_ratio ++
  jsonOpt "memory_limits_ratio" r.memory_limits_ratio

/-- Field access by key name, the reference for `jsonItems`. -/
def fieldGet (r : Record) (k : String) : Option PyVal :=
  if k = "cpu_limits" then r.cpu_limits
  else if k = "memory_limits" then r.memory_limits
  else if k = "cpu_requests" then r.cpu_requests
  else if k = "memory_requests" then r.memory_requests
  else if k = "memory_usage" then r.memory_usage
  else if k = "cpu_usage" then r.cpu_usage
  else if k = "cpu_requests_ratio" then r.cpu_requests_ratio
  else if k = "cpu_limits_ratio" then r.cpu_limits_ratio
  else if k = "memory_requests_ratio" then r.memory_requests_ratio
  else if k = "memory_limits_ratio" then r.memory_limits_ratio
  else Option.none

/-- The ten data cells of one CSV row (line 143), in the fixed column order
of the header (line 139); each cell is rendered from `.get(key, '')`, so an
absent field renders as the empty string. -/
def csvCells (r : Record) : List (Option PyVal) :=
  [r.cpu_requests, r.cpu_limits, r.cpu_usage, r.cpu_requests_ratio, r.cpu_limits_ratio,
   r.memory_requests, r.memory_limits, r.memory_usage, r.memory_requests_ratio,
   r.memory_limits_ratio]

/-- The CSV body (lines 140–143): one row per container, in report order,
with the namespace, pod and container names prepended to the data cells. -/
def csvRows (out : Report) : List (String × String × String × List (Option PyVal)) :=
  out.flatMap (fun nsEntry =>
    nsEntry.2.flatMap (fun pdEntry =>
      pdEntry.2.map (fun cnEntry =>
        (nsEntry.1, pdEntry.1, cnEntry.1, csvCells cnEntry.2))))

/-!
## Statement-level definitions for the claims
-/

/-- A canonical decimal digit string: nonempty and all ASCII digits.  The
claims about well-formed quantity strings quantify over these. -/
def digitStrB (s : String) : Bool :=
  !s.toList.isEmpty && s.toList.all (fun c => isDigitC c)

/-- The integer value of a digit string. -/
def digitsValS (s : String) : ℤ := digitsVal s.toList

/-- The "numeric remainder after suffix-stripping" of `parse_cpu`: which
characters `int(...)` is applied to, following the branch structure of the
code. -/
def cpuRemainder (l : List Char) : List Char :=
  if pyEndsWithL l ['m'] then removeAll ['m'] l
  else if pyEndsWithL l ['u'] then removeAll ['u'] l
  else if pyEndsWithL l ['n'] then removeAll ['n'] l
  else l

/-- The "numeric remainder after suffix-stripping" of `parse_memory`. -/
def memRemainder (l : List Char) : List Char :=
  if pyEndsWithL l ['K', 'i'] then removeAll ['K', 'i'] l
  else if pyEndsWithL l ['M', 'i'] then removeAll ['M', 'i'] l
  else if pyEndsWithL l ['G', 'i'] then removeAll ['G', 'i'] l
  else l

/-- A field value is "shaped" when it can only be truthy by being numeric —
true of every value the parsers can return (`ok` results are ints, floats,
or falsy pass-throughs). -/
def shapedOpt (o : Option PyVal) : Prop :=
  ∀ v, o = some v → truthy v = true → (asRat v).isSome

/-- The ratio invariant for one (ratio, usage, denominator) field triple of a
record in the final report: the ratio is present exactly when the usage
field is present and the denominator holds a nonzero numeric value, and a
present ratio is the truncated-toward-zero percentage of the current usage
over the denominator. -/
def ratioOk (ratio usage den : Option PyVal) : Prop :=
  (ratio.isSome ↔ (usage.isSome ∧ ∃ d dq, den = some d ∧ asRat d = some dq ∧ dq ≠ 0)) ∧
  (∀ z, ratio = some z →
    ∃ u uq d dq, usage = some u ∧ asRat u = some uq ∧ den = some d ∧ asRat d = some dq ∧
      dq ≠ 0 ∧ z = PyVal.int (truncRat (100 * uq / dq)))

/-- The full record invariant maintained by the aggregation. -/
def recInv (r : Record) : Prop :=
  shapedOpt r.cpu_requests ∧ shapedOpt r.cpu_limits ∧
  shapedOpt r.memory_requests ∧ shapedOpt r.memory_limits ∧
  ratioOk r.cpu_requests_ratio r.cpu_usage r.cpu_requests ∧
  ratioOk r.cpu_limits_ratio r.cpu_usage r.cpu_limits ∧
  ratioOk r.memory_requests_ratio r.memory_usage r.memory_requests ∧
  ratioOk r.memory_limits_ratio r.memory_usage r.memory_limits

/-- All records of a container dict satisfy the invariant. -/
def dictInv (d : CDict) : Prop := ∀ k r, alGet d k = some r → recInv r

/-- All records of a report satisfy the invariant. -/
def repInv (out : Report) : Prop := ∀ ns pd cn r, lookup3 out ns pd cn = some r → recInv r

/-- Distinct (namespace, name) keys across the pod list (pods are unique in
a cluster snapshot). -/
def podsDistinct (pods : List Pod) : Prop :=
  pods.Pairwise (fun a b => a.ns ≠ b.ns ∨ a.name ≠ b.name)

/-- Distinct container names inside one pod spec. -/
def containersDistinct (p : Pod) : Prop :=
  p.containers.Pairwise (fun a b => a.name ≠ b.name)

/-- Distinct container names in one metrics response. -/
def metricsDistinct (mcs : List MetricContainer) : Prop :=
  mcs.Pairwise (fun a b => a.name ≠ b.name)

/-!
## Concrete instances used by witnesses and counterexamples
-/

/-- C3 counterexample input: a negative usage quantity against a positive
request. -/
def c3pods : List Pod :=
  [⟨"n", "p", [⟨"c", some ⟨Option.none, some ⟨PyVal.str "3m", PyVal.none⟩⟩⟩]⟩]

/-- C3 counterexample usage source. -/
def c3fetch : UsageSource := fun _ _ => some [⟨"c", PyVal.str "-1m", PyVal.str "7Ki"⟩]

/-- The report of the C3 counterexample run. -/
def c3rep : Report :=
  match aggregate c3fetch c3pods with
  | Except.ok rep => rep
  | Except.error _ => []

/-- C3 witness input: realistic nonnegative quantities. -/
def c3wpods : List Pod :=
  [⟨"ns1", "web-0", [⟨"app", some ⟨Option.none,
      some ⟨PyVal.str "250m", PyVal.str "500Ki"⟩⟩⟩]⟩]

/-- C3 witness usage source. -/
def c3wfetch : UsageSource :=
  fun _ _ => some [⟨"app", PyVal.str "256000u", PyVal.str "250Ki"⟩]

/-- The report of the C3 witness run. -/
def c3wrep : Report :=
  match aggregate c3wfetch c3wpods with
  | Except.ok rep => rep
  | Except.error _ => []

/-- The single record of the C3 witness run. -/
def c3wrec : Record := (lookup3 c3wrep "ns1" "web-0" "app").getD {}

/-- C4 witness input: one pod with spec data whose metrics fetch fails. -/
def c4pods : List Pod :=
  [⟨"ns1", "web-0", [⟨"app", some ⟨Option.none,
      some ⟨PyVal.str "250m", PyVal.none⟩⟩⟩]⟩]

/-- C4 witness usage source: every fetch raises `ApiException`. -/
def c4fetch : UsageSource := fun _ _ => Option.none

/-- The report of the C4 witness run. -/
def c4rep : Report :=
  match aggregate c4fetch c4pods with
  | Except.ok rep => rep
  | Except.error _ => []

/-- The single record of the C4 witness run. -/
def c4rec : Record := (lookup3 c4rep "ns1" "web-0" "app").getD {}

/-- C5 counterexample input: the usage source reports a container that the
pod spec does not declare. -/
def c5pods : List Pod := [⟨"n", "p", []⟩]

/-- C5 counterexample usage source. -/
def c5fetch : UsageSource := fun _ _ => some [⟨"ghost", PyVal.str "1m", PyVal.str "1Ki"⟩]

/-- C5 witness input: the usage container is declared in the spec. -/
def c5wpods : List Pod :=
  [⟨"ns1", "web-0", [⟨"app", some ⟨Option.none,
      some ⟨PyVal.str "250m", PyVal.none⟩⟩⟩]⟩]

/-- C5 witness usage source. -/
def c5wfetch : UsageSource :=
  fun _ _ => some [⟨"app", PyVal.str "256000u", PyVal.str "250Ki"⟩]

/-- The report of the C5 witness run. -/
def c5wrep : Report :=
  match aggregate c5wfetch c5wpods with
  | Except.ok rep => rep
  | Except.error _ => []

/-- C6 counterexample input: a limits dict that configures only `cpu`. -/
def c6pods : List Pod :=
  [⟨"n", "p", [⟨"c", some ⟨some ⟨PyVal.str "500m", PyVal.none⟩, Option.none⟩⟩]⟩]

/-- C6 counterexample usage source. -/
def c6fetch : UsageSource := fun _ _ => Option.none

/-- The report of the C6 counterexample run. -/
def c6rep : Report :=
  match aggregate c6fetch c6pods with
  | Except.ok rep => rep
  | Except.error _ => []

/-- The single record of the C6 counterexample run. -/
def c6rec : Record := (lookup3 c6rep "n" "p" "c").getD {}

/-- C9 counterexample input: spec data plus one usage row. -/
def c9pods : List Pod :=
  [⟨"n", "p", [⟨"c", some ⟨Option.none, some ⟨PyVal.str "100m", PyVal.none⟩⟩⟩]⟩]

/-- C9 counterexample usage source. -/
def c9fetch : UsageSource := fun _ _ => some [⟨"c", PyVal.str "200m", PyVal.str "50Ki"⟩]

/-- C9 witness input. -/
def c9wpods : List Pod :=
  [⟨"ns1", "web-0", [⟨"app", some ⟨Option.none,
      some ⟨PyVal.str "250m", PyVal.none⟩⟩⟩]⟩]

/-- C9 witness usage source: metrics unavailable everywhere. -/
def c9wfetch : UsageSource := fun _ _ => Option.none

/-- C10 witness input: a pod whose container carries no resource data at
all, with no metrics. -/
def c10pods : List Pod := [⟨"ns1", "web-0", [⟨"app", Option.none⟩]⟩]

/-- C10 witness usage source. -/
def c10fetch : UsageSource := fun _ _ => Option.none

/-- The report of the C10 witness run. -/
def c10rep : Report :=
  match aggregate c10fetch c10pods with
  | Except.ok rep => rep
  | Except.error _ => []

/-!
## Lemmas: characters, digit strings, suffixes, `int(...)`
-/

lemma ne_of_digit {c c' : Char} (h : isDigitC c = true) (h' : isDigitC c' = false) :
    c ≠ c' := by
  intro he
  rw [he, h'] at h
  cases h

lemma digit_not_ws {c : Char} (h : isDigitC c = true) : c.isWhitespace = false := by
  simp only [isDigitC, Bool.and_eq_true, decide_eq_true_eq] at h
  by_contra hw
  rw [Bool.not_eq_false] at hw
  simp only [Char.isWhitespace, Bool.or_eq_true, decide_eq_true_eq] at hw
  rcases hw with ((rfl | rfl) | rfl) | rfl <;> exact absurd h (by decide)

lemma not_mem_of_digits {l : List Char} (h : ∀ c ∈ l, isDigitC c = true)
    {c : Char} (hc : isDigitC c = false) : c ∉ l := by
  intro hm
  rw [h c hm] at hc
  cases hc

lemma dropWhile_ws_of_digits {l : List Char} (h : ∀ c ∈ l, isDigitC c = true) :
    l.dropWhile Char.isWhitespace = l := by
  cases l with
  | nil => rfl
  | cons c t => simp [List.dropWhile_cons, digit_not_ws (h c (by simp))]

lemma pyTrim_of_digits {l : List Char} (h : ∀ c ∈ l, isDigitC c = true) : pyTrim l = l := by
  unfold pyTrim
  rw [dropWhile_ws_of_digits h,
    dropWhile_ws_of_digits (fun c hc => h c (List.mem_reverse.mp hc)),
    List.reverse_reverse]

lemma digitsTail_of_digits {l : List Char} (h : ∀ c ∈ l, isDigitC c = true) :
    digitsTail l = true := by
  induction l with
  | nil => rfl
  | cons c t ih =>
    have hc := h c (by simp)
    rw [digitsTail.eq_def]
    simp only []
    rw [if_neg (ne_of_digit hc (by decide))]
    simp [hc, ih (fun c' hc' => h c' (List.mem_cons_of_mem c hc'))]

lemma digitsUnd_of_digits {l : List Char} (hne : l ≠ []) (h : ∀ c ∈ l, isDigitC c = true) :
    digitsUnd l = true := by
  obtain ⟨c, t, rfl⟩ := List.exists_cons_of_ne_nil hne
  rw [digitsUnd]
  simp [h c (by simp), digitsTail_of_digits (fun c' hc' => h c' (List.mem_cons_of_mem c hc'))]

lemma pyIntChars_of_digits {l : List Char} (hne : l ≠ []) (h : ∀ c ∈ l, isDigitC c = true) :
    pyIntChars l = some (digitsVal l) := by
  obtain ⟨c, t, rfl⟩ := List.exists_cons_of_ne_nil hne
  have hc := h c (by simp)
  unfold pyIntChars
  rw [pyTrim_of_digits h]
  simp only []
  rw [if_neg (ne_of_digit hc (by decide)), if_neg (ne_of_digit hc (by decide)),
    if_pos (digitsUnd_of_digits (by simp) h)]

lemma pyEndsWith_append (l suf : List Char) : pyEndsWithL (l ++ suf) suf = true := by
  simp only [pyEndsWithL, decide_eq_true_eq]
  exact List.suffix_append l suf

lemma pyEndsWith_append_ne (p q l : List Char) (hlen : p.length = q.length)
    (hne : p ≠ q) : pyEndsWithL (l ++ q) p = false := by
  simp only [pyEndsWithL, decide_eq_false_iff_not]
  rintro ⟨t, ht⟩
  have hl : t.length = l.length := by
    have h2 := congrArg List.length ht
    simp only [List.length_append, hlen] at h2
    omega
  exact hne (List.append_inj ht hl).2

lemma pyEndsWith_digits {l p : List Char} (h : ∀ c ∈ l, isDigitC c = true)
    {c : Char} (hc : c ∈ p) (hcd : isDigitC c = false) : pyEndsWithL l p = false := by
  simp only [pyEndsWithL, decide_eq_false_iff_not]
  intro hs
  have hd := h c (hs.subset hc)
  rw [hd] at hcd
  cases hcd

lemma removeAllF_self {pat : List Char} (hp : pat ≠ []) (fuel : Nat)
    (hf : pat.length ≤ fuel) : removeAllF pat fuel pat = [] := by
  obtain ⟨p, ps, rfl⟩ := List.exists_cons_of_ne_nil hp
  cases fuel with
  | zero => simp at hf
  | succ f =>
    rw [removeAllF, if_pos ⟨hp, by simp [List.isPrefixOf_iff_prefix]⟩]
    have hdrop : ps.drop ((p :: ps).length - 1) = [] := by
      simp [List.drop_length]
    rw [hdrop]
    cases f <;> rfl

lemma removeAllF_append {pat : List Char} (hp : pat ≠ []) (l : List Char) :
    ∀ (fuel : Nat), (l ++ pat).length ≤ fuel →
    (∀ c, pat.head? = some c → c ∉ l) →
    removeAllF pat fuel (l ++ pat) = l := by
  induction l with
  | nil =>
    intro fuel hf _
    simpa using removeAllF_self hp fuel (by simpa using hf)
  | cons c t ih =>
    intro fuel hf hh
    obtain ⟨p, ps, rfl⟩ := List.exists_cons_of_ne_nil hp
    cases fuel with
    | zero => simp [List.length_append] at hf
    | succ f =>
      have hpc : p ≠ c := by
        intro he
        exact hh p rfl (by simp [he])
      have hcons : (c :: t) ++ (p :: ps) = c :: (t ++ (p :: ps)) := rfl
      rw [hcons, removeAllF, if_neg ?hcond]
      case hcond =>
        rintro ⟨-, hpre⟩
        simp only [List.isPrefixOf, Bool.and_eq_true, beq_iff_eq] at hpre
        exact hpc hpre.1
      have hlen : (t ++ (p :: ps)).length ≤ f := by
        simp only [List.length_append, List.length_cons] at hf ⊢
        omega
      rw [ih f hlen (fun c' hc' hm => hh c' hc' (by simp [hm]))]

lemma removeAll_append {pat : List Char} (hp : pat ≠ []) (l : List Char)
    (hh : ∀ c, pat.head? = some c → c ∉ l) : removeAll pat (l ++ pat) = l :=
  removeAllF_append hp l _ le_rfl hh

lemma toList_append_str (s t : String) : (s ++ t).toList = s.toList ++ t.toList := by
  simp [String.toList]

lemma digitStrB_elim {s : String} (h : digitStrB s = true) :
    s.toList ≠ [] ∧ ∀ c ∈ s.toList, isDigitC c = true := by
  simp only [digitStrB, Bool.and_eq_true, Bool.not_eq_true', List.all_eq_true] at h
  refine ⟨fun he => ?_, h.2⟩
  have h1 := h.1
  rw [he] at h1
  cases h1

lemma str_append_truthy {s t : String} (ht : t.toList ≠ []) :
    truthy (PyVal.str (s ++ t)) = true := by
  simp only [truthy, decide_eq_true_eq]
  intro he
  have h2 := congrArg String.toList he
  rw [toList_append_str] at h2
  simp only [String.toList] at h2 ht
  rcases List.append_eq_nil.mp h2 with ⟨-, h4⟩
  exact ht h4

lemma head_not_mem_of_digits {l : List Char} (hd : ∀ c ∈ l, isDigitC c = true)
    (p : List Char) (c0 : Char) (h0 : p.head? = some c0) (hc0 : isDigitC c0 = false) :
    ∀ c, p.head? = some c → c ∉ l := by
  intro c hc
  rw [h0, Option.some.injEq] at hc
  subst hc
  exact not_mem_of_digits hd hc0

/-!
## Claim theorems: the quantity parsers (C1, C2)
-/

/-- **C1.** For every well-formed (digit-string-based) CPU string:
suffix `m` yields the integer remainder unchanged, suffix `u` yields the
remainder divided by 1024 truncated toward zero, suffix `n` yields the
remainder divided by 1024·1024 kept fractional (a float), and a plain
numeric string yields the remainder multiplied by 1024. -/
theorem parse_cpu_wellformed (s : String) (h : digitStrB s = true) :
    parse_cpu (PyVal.str (s ++ "m")) = Except.ok (PyVal.int (digitsValS s)) ∧
    parse_cpu (PyVal.str (s ++ "u")) = Except.ok (PyVal.int (Int.tdiv (digitsValS s) 1024)) ∧
    parse_cpu (PyVal.str (s ++ "n")) =
      Except.ok (PyVal.float ((digitsValS s : ℚ) / (1024 * 1024))) ∧
    parse_cpu (PyVal.str s) = Except.ok (PyVal.int (1024 * digitsValS s)) := by
  obtain ⟨hne, hd⟩ := digitStrB_elim h
  refine ⟨?_, ?_, ?_, ?_⟩
  · have htl : (s ++ "m").toList = s.toList ++ ['m'] := by rw [toList_append_str]; rfl
    simp only [parse_cpu, str_append_truthy (show ("m" : String).toList ≠ [] from by decide),
      if_true, htl, pyEndsWith_append,
      removeAll_append (by decide) s.toList (head_not_mem_of_digits hd ['m'] 'm' rfl (by decide)),
      pyIntChars_of_digits hne hd, digitsValS]
  · have htl : (s ++ "u").toList = s.toList ++ ['u'] := by rw [toList_append_str]; rfl
    simp only [parse_cpu, str_append_truthy (show ("u" : String).toList ≠ [] from by decide),
      if_true, htl, pyEndsWith_append,
      pyEndsWith_append_ne ['m'] ['u'] s.toList (by decide) (by decide),
      removeAll_append (by decide) s.toList (head_not_mem_of_digits hd ['u'] 'u' rfl (by decide)),
      pyIntChars_of_digits hne hd, digitsValS, Bool.false_eq_true, if_false]
  · have htl : (s ++ "n").toList = s.toList ++ ['n'] := by rw [toList_append_str]; rfl
    have hval : mkRat (digitsVal s.toList) (1024 * 1024) =
        (digitsVal s.toList : ℚ) / (1024 * 1024) := by
      rw [Rat.mkRat_eq_div]
      norm_num
    simp only [parse_cpu, str_append_truthy (show ("n" : String).toList ≠ [] from by decide),
      if_true, htl, pyEndsWith_append,
      pyEndsWith_append_ne ['m'] ['n'] s.toList (by decide) (by decide),
      pyEndsWith_append_ne ['u'] ['n'] s.toList (by decide) (by decide),
      removeAll_append (by decide) s.toList (head_not_mem_of_digits hd ['n'] 'n' rfl (by decide)),
      pyIntChars_of_digits hne hd, digitsValS, Bool.false_eq_true, if_false, hval]
  · have htr : truthy (PyVal.str s) = true := by
      simp only [truthy, decide_eq_true_eq]
      intro he
      exact hne (by rw [he]; rfl)
    simp only [parse_cpu, htr, if_true,
      pyEndsWith_digits hd (show 'm' ∈ ['m'] from by decide) (by decide),
      pyEndsWith_digits hd (show 'u' ∈ ['u'] from by decide) (by decide),
      pyEndsWith_digits hd (show 'n' ∈ ['n'] from by decide) (by decide),
      pyIntChars_of_digits hne hd, digitsValS, Bool.false_eq_true, if_false]

/-- Witness for C1 at the spec's own examples: `250m`, `500000u` (= 488),
`2` (= 2048). -/
theorem parse_cpu_wellformed_witness :
    digitStrB "250" = true ∧ digitStrB "500000" = true ∧ digitStrB "2" = true ∧
    parse_cpu (PyVal.str ("250" ++ "m")) = Except.ok (PyVal.int (digitsValS "250")) ∧
    parse_cpu (PyVal.str ("500000" ++ "u")) =
      Except.ok (PyVal.int (Int.tdiv (digitsValS "500000") 1024)) ∧
    parse_cpu (PyVal.str "2") = Except.ok (PyVal.int (1024 * digitsValS "2")) ∧
    digitsValS "250" = 250 ∧ Int.tdiv (digitsValS "500000") 1024 = 488 ∧
    1024 * digitsValS "2" = 2048 :=
  ⟨by decide, by decide, by decide,
   (parse_cpu_wellformed "250" (by decide)).1,
   (parse_cpu_wellformed "500000" (by decide)).2.1,
   (parse_cpu_wellformed "2" (by decide)).2.2.2,
   by decide, by decide, by decide⟩

/-- **C2.** For every well-formed (digit-string-based) memory string:
suffix `Ki` yields the integer remainder unchanged, suffix `Mi` multiplies
it by 1024, suffix `Gi` by 1024·1024, and a plain numeric string is parsed
as integer KiB directly. -/
theorem parse_memory_wellformed (s : String) (h : digitStrB s = true) :
    parse_memory (PyVal.str (s ++ "Ki")) = Except.ok (PyVal.int (digitsValS s)) ∧
    parse_memory (PyVal.str (s ++ "Mi")) = Except.ok (PyVal.int (1024 * digitsValS s)) ∧
    parse_memory (PyVal.str (s ++ "Gi")) =
      Except.ok (PyVal.int (1024 * 1024 * digitsValS s)) ∧
    parse_memory (PyVal.str s) = Except.ok (PyVal.int (digitsValS s)) := by
  obtain ⟨hne, hd⟩ := digitStrB_elim h
  refine ⟨?_, ?_, ?_, ?_⟩
  · have htl : (s ++ "Ki").toList = s.toList ++ ['K', 'i'] := by rw [toList_append_str]; rfl
    simp only [parse_memory, str_append_truthy (show ("Ki" : String).toList ≠ [] from by decide),
      if_true, htl, pyEndsWith_append,
      removeAll_append (by decide) s.toList (head_not_mem_of_digits hd ['K', 'i'] 'K' rfl (by decide)),
      pyIntChars_of_digits hne hd, digitsValS]
  · have htl : (s ++ "Mi").toList = s.toList ++ ['M', 'i'] := by rw [toList_append_str]; rfl
    simp only [parse_memory, str_append_truthy (show ("Mi" : String).toList ≠ [] from by decide),
      if_true, htl, pyEndsWith_append,
      pyEndsWith_append_ne ['K', 'i'] ['M', 'i'] s.toList (by decide) (by decide),
      removeAll_append (by decide) s.toList (head_not_mem_of_digits hd ['M', 'i'] 'M' rfl (by decide)),
      pyIntChars_of_digits hne hd, digitsValS, Bool.false_eq_true, if_false]
  · have htl : (s ++ "Gi").toList = s.toList ++ ['G', 'i'] := by rw [toList_append_str]; rfl
    simp only [parse_memory, str_append_truthy (show ("Gi" : String).toList ≠ [] from by decide),
      if_true, htl, pyEndsWith_append,
      pyEndsWith_append_ne ['K', 'i'] ['G', 'i'] s.toList (by decide) (by decide),
      pyEndsWith_append_ne ['M', 'i'] ['G', 'i'] s.toList (by decide) (by decide),
      removeAll_append (by decide) s.toList (head_not_mem_of_digits hd ['G', 'i'] 'G' rfl (by decide)),
      pyIntChars_of_digits hne hd, digitsValS, Bool.false_eq_true, if_false]
  · have htr : truthy (PyVal.str s) = true := by
      simp only [truthy, decide_eq_true_eq]
      intro he
      exact hne (by rw [he]; rfl)
    simp only [parse_memory, htr, if_true,
      pyEndsWith_digits hd (show 'K' ∈ ['K', 'i'] from by decide) (by decide),
      pyEndsWith_digits hd (show 'M' ∈ ['M', 'i'] from by decide) (by decide),
      pyEndsWith_digits hd (show 'G' ∈ ['G', 'i'] from by decide) (by decide),
      pyIntChars_of_digits hne hd, digitsValS, Bool.false_eq_true, if_false]

/-- Witness for C2 at the spec's own examples: `512Ki`, `4Mi`, `2Gi`. -/
theorem parse_memory_wellformed_witness :
    digitStrB "512" = true ∧ digitStrB "4" = true ∧ digitStrB "2" = true ∧
    parse_memory (PyVal.str ("512" ++ "Ki")) = Except.ok (PyVal.int (digitsValS "512")) ∧
    parse_memory (PyVal.str ("4" ++ "Mi")) = Except.ok (PyVal.int (1024 * digitsValS "4")) ∧
    parse_memory (PyVal.str ("2" ++ "Gi")) =
      Except.ok (PyVal.int (1024 * 1024 * digitsValS "2")) ∧
    digitsValS "512" = 512 ∧ 1024 * digitsValS "4" = 4096 ∧
    1024 * 1024 * digitsValS "2" = 2097152 :=
  ⟨by decide, by decide, by decide,
   (parse_memory_wellformed "512" (by decide)).1,
   (parse_memory_wellformed "4" (by decide)).2.1,
   (parse_memory_wellformed "2" (by decide)).2.2.1,
   by decide, by decide, by decide⟩

/-!
## Claim theorems: non-string input (C7) and invalid remainders (C8)
-/

/-- **C7 (code bug).** A truthy non-string numeric input does *not* pass
through unchanged: `.endswith` is called on it before the `isinstance`
check, so `parse_cpu(2)` / `parse_memory(2)` raise `AttributeError`, even
though the functions' own docstrings ("CPU may be integer, float, m, u or
n") and their (unreachable) pass-through `else` branches intend numbers to
be returned unchanged.  Only the falsy numbers `0` / `0.0` pass through. -/
theorem parse_numeric_passthrough_bug :
    parse_cpu (PyVal.int 2) = Except.error PyErr.attributeError ∧
    parse_memory (PyVal.int 2) = Except.error PyErr.attributeError ∧
    parse_cpu (PyVal.float 2) = Except.error PyErr.attributeError ∧
    parse_memory (PyVal.float 2) = Except.error PyErr.attributeError ∧
    parse_cpu (PyVal.int 0) = Except.ok (PyVal.int 0) ∧
    parse_memory (PyVal.int 0) = Except.ok (PyVal.int 0) := by
  refine ⟨rfl, rfl, ?_, ?_, by decide, by decide⟩ <;>
    simp [parse_cpu, parse_memory, truthy]

/-- **C8 (counterexample).** The empty string has an invalid numeric
remainder (its remainder is itself, and `int("")` fails), yet both parsers
return it unchanged instead of failing with `ParseError`: `""` is falsy and
takes the pass-through branch. -/
theorem parse_error_empty_counterexample :
    pyIntChars (cpuRemainder ("" : String).toList) = Option.none ∧
    pyIntChars (memRemainder ("" : String).toList) = Option.none ∧
    parse_cpu (PyVal.str "") = Except.ok (PyVal.str "") ∧
    parse_memory (PyVal.str "") = Except.ok (PyVal.str "") := by
  refine ⟨by decide, by decide, rfl, rfl⟩

/-- **C8 (amended).** For every *nonempty* input string whose numeric
remainder after suffix-stripping is not a valid integer, `parse_cpu` and
`parse_memory` fail with `ParseError` (`ValueError` of `int(...)`) and in no
such case return a value. -/
theorem parse_error_invalid_remainder (s : String) (h : s ≠ "") :
    (pyIntChars (cpuRemainder s.toList) = Option.none →
      parse_cpu (PyVal.str s) = Except.error PyErr.valueError) ∧
    (pyIntChars (memRemainder s.toList) = Option.none →
      parse_memory (PyVal.str s) = Except.error PyErr.valueError) := by
  have htr : truthy (PyVal.str s) = true := by simp [truthy, h]
  constructor
  · intro hn
    rw [cpuRemainder] at hn
    simp only [parse_cpu, htr, if_true]
    split_ifs at hn ⊢ <;> simp only [String.toList] at hn <;> simp [hn]
  · intro hn
    rw [memRemainder] at hn
    simp only [parse_memory, htr, if_true]
    split_ifs at hn ⊢ <;> simp only [String.toList] at hn <;> simp [hn]

/-- Witness for the amended C8 at `"abcm"` (remainder `"abc"`). -/
theorem parse_error_invalid_remainder_witness :
    (("abcm" : String) ≠ "") ∧
    parse_cpu (PyVal.str "abcm") = Except.error PyErr.valueError ∧
    parse_memory (PyVal.str "abcm") = Except.error PyErr.valueError :=
  ⟨by decide, (parse_error_invalid_remainder "abcm" (by decide)).1 (by decide),
   (parse_error_invalid_remainder "abcm" (by decide)).2 (by decide)⟩

/-!
## Lemmas: association lists and the aggregation loop
-/

lemma alGet_alSet {α : Type} (d : AList α) (k : String) (v : α) (k' : String) :
    alGet (alSet d k v) k' = if k = k' then some v else alGet d k' := by
  induction d with
  | nil => rfl
  | cons kv rest ih =>
    obtain ⟨k'', v''⟩ := kv
    by_cases h1 : k'' = k
    · subst h1
      by_cases h3 : k'' = k' <;> simp [alSet, alGet, h3]
    · by_cases h2 : k'' = k'
      · subst h2
        have h3 : ¬(k = k'') := fun he => h1 he.symm
        simp [alSet, alGet, h1, h3]
      · simp [alSet, alGet, h1, h2, ih]

lemma alGet_alSet_self {α : Type} (d : AList α) (k : String) (v : α) :
    alGet (alSet d k v) k = some v := by
  rw [alGet_alSet, if_pos rfl]

lemma alGet_alSet_ne {α : Type} (d : AList α) (k : String) (v : α) {k' : String}
    (h : k ≠ k') : alGet (alSet d k v) k' = alGet d k' := by
  rw [alGet_alSet, if_neg h]

lemma alGet2_setPod (out : Report) (ns pd : String) (d : CDict) (ns' pd' : String) :
    alGet2 (setPod out ns pd d) ns' pd' =
      if ns = ns' ∧ pd = pd' then some d else alGet2 out ns' pd' := by
  unfold setPod
  by_cases h1 : ns = ns'
  · subst h1
    cases hg : alGet out ns with
    | some nsd =>
      by_cases h2 : pd = pd' <;> simp [alGet2, alGet_alSet, hg, h2]
    | none =>
      by_cases h2 : pd = pd' <;> simp [alGet2, alGet_alSet, alGet, hg, h2]
  · cases hg : alGet out ns with
    | some nsd => simp [alGet2, alGet_alSet, hg, h1]
    | none => simp [alGet2, alGet_alSet, hg, h1]

lemma processPod_ok_elim {fetch : UsageSource} {out : Report} {p : Pod} {out' : Report}
    (h : processPod fetch out p = Except.ok out') :
    ∃ d, podDict fetch p = Except.ok d ∧ out' = setPod out p.ns p.name d := by
  unfold processPod at h
  cases hd : podDict fetch p with
  | error e => rw [hd] at h; cases h
  | ok d => rw [hd] at h; exact ⟨d, rfl, (Except.ok.injEq _ _ ▸ h).symm⟩

lemma aggAux_preserves {fetch : UsageSource} {ns pd : String} :
    ∀ {ps : List Pod} {out rep : Report}, aggAux fetch ps out = Except.ok rep →
    (∀ p ∈ ps, ¬(p.ns = ns ∧ p.name = pd)) → alGet2 rep ns pd = alGet2 out ns pd := by
  intro ps
  induction ps with
  | nil =>
    intro out rep h _
    cases h
    rfl
  | cons q ps' ih =>
    intro out rep h hk
    rw [aggAux] at h
    cases hq : processPod fetch out q with
    | error e => rw [hq] at h; cases h
    | ok out1 =>
      rw [hq] at h
      obtain ⟨d, -, rfl⟩ := processPod_ok_elim hq
      rw [ih h (fun p hp => hk p (List.mem_cons_of_mem q hp)), alGet2_setPod,
        if_neg (hk q (List.mem_cons_self q ps'))]

lemma aggAux_lookup {fetch : UsageSource} :
    ∀ {ps : List Pod} {out rep : Report}, aggAux fetch ps out = Except.ok rep →
    ps.Pairwise (fun a b => a.ns ≠ b.ns ∨ a.name ≠ b.name) →
    ∀ p ∈ ps, ∃ d, podDict fetch p = Except.ok d ∧ alGet2 rep p.ns p.name = some d := by
  intro ps
  induction ps with
  | nil => intro _ _ _ _ p hp; cases hp
  | cons q ps' ih =>
    intro out rep h hdist p hp
    rw [aggAux] at h
    cases hq : processPod fetch out q with
    | error e => rw [hq] at h; cases h
    | ok out1 =>
      rw [hq] at h
      rcases List.mem_cons.mp hp with rfl | hp'
      · obtain ⟨d, hd, rfl⟩ := processPod_ok_elim hq
        refine ⟨d, hd, ?_⟩
        have hne : ∀ b ∈ ps', ¬(b.ns = p.ns ∧ b.name = p.name) := by
          intro b hb hc
          rcases (List.pairwise_cons.mp hdist).1 b hb with h1 | h1
          · exact h1 hc.1.symm
          · exact h1 hc.2.symm
        rw [aggAux_preserves h hne, alGet2_setPod, if_pos ⟨rfl, rfl⟩]
      · exact ih h (List.pairwise_cons.mp hdist).2 p hp'

/-- Lookups in the final report of `aggregate` deliver exactly the per-pod
dicts. -/
lemma aggregate_lookup {fetch : UsageSource} {pods : List Pod} {rep : Report}
    (h : aggregate fetch pods = Except.ok rep) (hdist : podsDistinct pods)
    {p : Pod} (hp : p ∈ pods) :
    ∃ d, podDict fetch p = Except.ok d ∧ alGet2 rep p.ns p.name = some d :=
  aggAux_lookup h hdist p hp

lemma specFold_ok_cons {c : ContainerSpec} {cs : List ContainerSpec} {d0 d : CDict}
    (h : specFold (c :: cs) d0 = Except.ok d) :
    ∃ r, specRecord c = Except.ok r ∧ specFold cs (alSet d0 c.name r) = Except.ok d := by
  rw [specFold] at h
  cases hr : specRecord c with
  | error e => rw [hr] at h; cases h
  | ok r => rw [hr] at h; exact ⟨r, rfl, h⟩

lemma specFold_preserves {k : String} :
    ∀ {cs : List ContainerSpec} {d0 d : CDict}, specFold cs d0 = Except.ok d →
    (∀ c ∈ cs, c.name ≠ k) → alGet d k = alGet d0 k := by
  intro cs
  induction cs with
  | nil => intro d0 d h _; cases h; rfl
  | cons c cs' ih =>
    intro d0 d h hk
    obtain ⟨r, -, h2⟩ := specFold_ok_cons h
    rw [ih h2 (fun c' hc' => hk c' (List.mem_cons_of_mem c hc')),
      alGet_alSet_ne _ _ _ (hk c (List.mem_cons_self c cs'))]

lemma specFold_lookup :
    ∀ {cs : List ContainerSpec} {d0 d : CDict}, specFold cs d0 = Except.ok d →
    cs.Pairwise (fun a b => a.name ≠ b.name) →
    ∀ c ∈ cs, ∃ r, specRecord c = Except.ok r ∧ alGet d c.name = some r := by
  intro cs
  induction cs with
  | nil => intro _ _ _ _ c hc; cases hc
  | cons c0 cs' ih =>
    intro d0 d h hdist c hc
    obtain ⟨r0, hr0, h2⟩ := specFold_ok_cons h
    rcases List.mem_cons.mp hc with rfl | hc'
    · refine ⟨r0, hr0, ?_⟩
      rw [specFold_preserves h2 (fun b hb => ((List.pairwise_cons.mp hdist).1 b hb).symm),
        alGet_alSet_self]
    · exact ih h2 (List.pairwise_cons.mp hdist).2 c hc'

lemma specFold_keys :
    ∀ {cs : List ContainerSpec} {d0 d : CDict}, specFold cs d0 = Except.ok d →
    ∀ k, (alGet d k).isSome → (alGet d0 k).isSome ∨ ∃ c ∈ cs, c.name = k := by
  intro cs
  induction cs with
  | nil => intro d0 d h k hk; cases h; exact Or.inl hk
  | cons c cs' ih =>
    intro d0 d h k hk
    obtain ⟨r, -, h2⟩ := specFold_ok_cons h
    rcases ih h2 k hk with h3 | h3
    · rw [alGet_alSet] at h3
      by_cases he : c.name = k
      · exact Or.inr ⟨c, List.mem_cons_self c cs', he⟩
      · rw [if_neg he] at h3
        exact Or.inl h3
    · obtain ⟨c', hc', he⟩ := h3
      exact Or.inr ⟨c', List.mem_cons_of_mem c hc', he⟩

lemma specFold_keys_exists :
    ∀ {cs : List ContainerSpec} {d0 d : CDict}, specFold cs d0 = Except.ok d →
    ∀ k, ((alGet d0 k).isSome ∨ ∃ c ∈ cs, c.name = k) → (alGet d k).isSome := by
  intro cs
  induction cs with
  | nil =>
    intro d0 d h k hk
    cases h
    rcases hk with h1 | ⟨c, hc, -⟩
    · exact h1
    · cases hc
  | cons c cs' ih =>
    intro d0 d h k hk
    obtain ⟨r, -, h2⟩ := specFold_ok_cons h
    refine ih h2 k ?_
    rcases hk with h1 | ⟨c', hc', he⟩
    · left
      rw [alGet_alSet]
      by_cases he : c.name = k <;> simp [he, h1]
    · rcases List.mem_cons.mp hc' with rfl | hc''
      · left
        rw [he, alGet_alSet_self]
        rfl
      · exact Or.inr ⟨c', hc'', he⟩

lemma applyUsage_ok_elim {d : CDict} {mc : MetricContainer} {d' : CDict}
    (h : applyUsage d mc = Except.ok d') :
    ∃ mu r0 cu r, parse_memory mc.usageMemory = Except.ok mu ∧ alGet d mc.name = some r0 ∧
      parse_cpu mc.usageCpu = Except.ok cu ∧ usageRecord r0 mu cu = Except.ok r ∧
      d' = alSet d mc.name r := by
  unfold applyUsage at h
  cases hm : parse_memory mc.usageMemory with
  | error e => simp only [hm] at h; cases h
  | ok mu =>
    simp only [hm] at h
    cases hg : alGet d mc.name with
    | none => simp only [hg] at h; cases h
    | some r0 =>
      simp only [hg] at h
      cases hc : parse_cpu mc.usageCpu with
      | error e => simp only [hc] at h; cases h
      | ok cu =>
        simp only [hc] at h
        cases hu : usageRecord r0 mu cu with
        | error e => simp only [hu] at h; cases h
        | ok r =>
          simp only [hu, Except.ok.injEq] at h
          exact ⟨mu, r0, cu, r, rfl, rfl, rfl, hu, h.symm⟩

lemma usageFold_ok_cons {mc : MetricContainer} {mcs : List MetricContainer} {d d' : CDict}
    (h : usageFold (mc :: mcs) d = Except.ok d') :
    ∃ d1, applyUsage d mc = Except.ok d1 ∧ usageFold mcs d1 = Except.ok d' := by
  rw [usageFold] at h
  cases ha : applyUsage d mc with
  | error e => rw [ha] at h; cases h
  | ok d1 => rw [ha] at h; exact ⟨d1, rfl, h⟩

lemma usageFold_preserves {k : String} :
    ∀ {mcs : List MetricContainer} {d d' : CDict}, usageFold mcs d = Except.ok d' →
    (∀ mc ∈ mcs, mc.name ≠ k) → alGet d' k = alGet d k := by
  intro mcs
  induction mcs with
  | nil => intro d d' h _; cases h; rfl
  | cons mc mcs' ih =>
    intro d d' h hk
    obtain ⟨d1, h1, h2⟩ := usageFold_ok_cons h
    obtain ⟨mu, r0, cu, r, -, -, -, -, rfl⟩ := applyUsage_ok_elim h1
    rw [ih h2 (fun mc' hm => hk mc' (List.mem_cons_of_mem mc hm)),
      alGet_alSet_ne _ _ _ (hk mc (List.mem_cons_self mc mcs'))]

lemma usageFold_lookup :
    ∀ {mcs : List MetricContainer} {d d' : CDict}, usageFold mcs d = Except.ok d' →
    metricsDistinct mcs →
    ∀ mc ∈ mcs, ∃ r0 mu cu r, alGet d mc.name = some r0 ∧
      parse_memory mc.usageMemory = Except.ok mu ∧ parse_cpu mc.usageCpu = Except.ok cu ∧
      usageRecord r0 mu cu = Except.ok r ∧ alGet d' mc.name = some r := by
  intro mcs
  induction mcs with
  | nil => intro _ _ _ _ mc hm; cases hm
  | cons mc0 mcs' ih =>
    intro d d' h hdist mc hm
    obtain ⟨d1, h1, h2⟩ := usageFold_ok_cons h
    obtain ⟨mu, r0, cu, r, hmu, hr0, hcu, hur, rfl⟩ := applyUsage_ok_elim h1
    rcases List.mem_cons.mp hm with rfl | hm'
    · refine ⟨r0, mu, cu, r, hr0, hmu, hcu, hur, ?_⟩
      rw [usageFold_preserves h2
        (fun b hb => ((List.pairwise_cons.mp hdist).1 b hb).symm), alGet_alSet_self]
    · obtain ⟨r0', mu', cu', r', hr0', rest⟩ :=
        ih h2 (List.pairwise_cons.mp hdist).2 mc hm'
      have hne : mc0.name ≠ mc.name := (List.pairwise_cons.mp hdist).1 mc hm'
      rw [alGet_alSet_ne _ _ _ hne] at hr0'
      exact ⟨r0', mu', cu', r', hr0', rest⟩

lemma usageFold_keys :
    ∀ {mcs : List MetricContainer} {d d' : CDict}, usageFold mcs d = Except.ok d' →
    ∀ k, (alGet d k).isSome → (alGet d' k).isSome := by
  intro mcs
  induction mcs with
  | nil => intro d d' h k hk; cases h; exact hk
  | cons mc mcs' ih =>
    intro d d' h k hk
    obtain ⟨d1, h1, h2⟩ := usageFold_ok_cons h
    obtain ⟨mu, r0, cu, r, -, -, -, -, rfl⟩ := applyUsage_ok_elim h1
    refine ih h2 k ?_
    rw [alGet_alSet]
    by_cases he : mc.name = k <;> simp [he, hk]

/-!
## Lemmas: the ratio computation
-/

lemma truthy_asRat_ne_zero {d : PyVal} {dq : ℚ} (ht : truthy d = true)
    (hd : asRat d = some dq) : dq ≠ 0 := by
  cases d with
  | int n =>
    simp only [truthy, decide_eq_true_eq] at ht
    simp only [asRat, Option.some.injEq] at hd
    subst hd
    exact_mod_cast ht
  | float q =>
    simp only [truthy, decide_eq_true_eq] at ht
    simp only [asRat, Option.some.injEq] at hd
    subst hd
    exact ht
  | none => cases hd
  | str s => cases hd

lemma asRat_ne_zero_truthy {d : PyVal} {dq : ℚ} (hd : asRat d = some dq) (hdq : dq ≠ 0) :
    truthy d = true := by
  cases d with
  | int n =>
    simp only [asRat, Option.some.injEq] at hd
    subst hd
    simp only [truthy, decide_eq_true_eq]
    exact_mod_cast hdq
  | float q =>
    simp only [asRat, Option.some.injEq] at hd
    subst hd
    simpa [truthy] using hdq
  | none => cases hd
  | str s => cases hd

lemma truthyOpt_false_no_nonzero {den : Option PyVal} (hf : truthyOpt den = false) :
    ¬∃ d dq, den = some d ∧ asRat d = some dq ∧ dq ≠ 0 := by
  rintro ⟨d, dq, rfl, hd, hdq⟩
  rw [show truthyOpt (some d) = truthy d from rfl, asRat_ne_zero_truthy hd hdq] at hf
  cases hf

/-- `Int.tdiv` is truncation toward zero of the exact rational quotient. -/
lemma tdiv_eq_truncRat (a b : ℤ) (hb : b ≠ 0) :
    Int.tdiv a b = truncRat ((a : ℚ) / (b : ℚ)) := by
  rcases lt_trichotomy b 0 with hbneg | rfl | hbpos
  · have h1 : Int.tdiv a b = Int.tdiv (-a) (-b) := by
      rw [Int.neg_tdiv, Int.tdiv_neg, neg_neg]
    have h2 : ((a : ℚ) / (b : ℚ)) = ((-a : ℤ) : ℚ) / ((-b : ℤ) : ℚ) := by
      push_cast
      rw [div_neg, neg_div, neg_neg]
    rw [h1, h2]
    have hbpos' : (0 : ℤ) < -b := by omega
    exact tdiv_eq_truncRat' (-a) (-b) hbpos'
  · exact absurd rfl hb
  · exact tdiv_eq_truncRat' a b hbpos
where
  tdiv_eq_truncRat' (a b : ℤ) (hb : 0 < b) :
      Int.tdiv a b = truncRat ((a : ℚ) / (b : ℚ)) := by
    obtain ⟨bn, rfl⟩ : ∃ bn : ℕ, b = (bn : ℤ) := ⟨b.toNat, by omega⟩
    have hbq : (0 : ℚ) < ((bn : ℤ) : ℚ) := by exact_mod_cast hb
    have hcast : (((bn : ℕ) : ℤ) : ℚ) = ((bn : ℕ) : ℚ) := by push_cast; ring
    rcases le_or_lt 0 a with ha | ha
    · have hq : 0 ≤ (a : ℚ) / ((bn : ℤ) : ℚ) :=
        div_nonneg (by exact_mod_cast ha) (le_of_lt hbq)
      rw [truncRat, if_pos hq, Int.tdiv_eq_ediv ha (le_of_lt hb), hcast]
      exact (Rat.floor_intCast_div_natCast a bn).symm
    · have hq : ¬(0 ≤ (a : ℚ) / ((bn : ℤ) : ℚ)) := by
        rw [not_le]
        exact div_neg_of_neg_of_pos (by exact_mod_cast ha) hbq
      rw [truncRat, if_neg hq]
      calc Int.tdiv a (bn : ℤ) = -Int.tdiv (-a) (bn : ℤ) := by rw [Int.neg_tdiv, neg_neg]
        _ = -((-a) / (bn : ℤ)) := by rw [Int.tdiv_eq_ediv (by omega) (le_of_lt hb)]
        _ = -⌊((-a : ℤ) : ℚ) / ((bn : ℕ) : ℚ)⌋ := by rw [Rat.floor_intCast_div_natCast]
        _ = ⌈(a : ℚ) / ((bn : ℤ) : ℚ)⌉ := by
            have hneg : ((-a : ℤ) : ℚ) / ((bn : ℕ) : ℚ) = -((a : ℚ) / ((bn : ℤ) : ℚ)) := by
              push_cast
              ring
            rw [hneg, Int.floor_neg, neg_neg]

lemma pyRatioVal_ok_elim {u d : PyVal} {z : ℤ} (h : pyRatioVal u d = Except.ok z) :
    ∃ uq dq, asRat u = some uq ∧ asRat d = some dq ∧ dq ≠ 0 ∧
      z = truncRat (100 * uq / dq) := by
  unfold pyRatioVal at h
  cases hu : asRat u with
  | none => simp only [hu] at h; cases h
  | some uq =>
    cases hd : asRat d with
    | none => simp only [hu, hd] at h; cases h
    | some dq =>
      simp only [hu, hd] at h
      by_cases hdq : dq = 0
      · rw [if_pos hdq] at h
        cases h
      · rw [if_neg hdq, Except.ok.injEq] at h
        refine ⟨uq, dq, rfl, rfl, hdq, ?_⟩
        rw [← h]
        exact ratio_formula hdq
where
  ratio_formula {uq dq : ℚ} (hdq : dq ≠ 0) :
      Int.tdiv (100 * uq.num * (dq.den : ℤ)) ((uq.den : ℤ) * dq.num) =
        truncRat (100 * uq / dq) := by
    have hud : ((uq.den : ℤ) : ℚ) ≠ 0 := by
      exact_mod_cast uq.den_nz
    have hdd : ((dq.den : ℤ) : ℚ) ≠ 0 := by
      exact_mod_cast dq.den_nz
    have hdn : ((dq.num : ℤ) : ℚ) ≠ 0 := by
      exact_mod_cast Rat.num_ne_zero.mpr hdq
    have hden : ((uq.den : ℤ) * dq.num) ≠ 0 := by
      have h1 : (uq.den : ℤ) ≠ 0 := by exact_mod_cast uq.den_nz
      have h2 : (dq.num : ℤ) ≠ 0 := Rat.num_ne_zero.mpr hdq
      exact mul_ne_zero h1 h2
    rw [tdiv_eq_truncRat _ _ hden]
    congr 1
    have hud' : ((uq.den : ℕ) : ℚ) ≠ 0 := by exact_mod_cast uq.den_nz
    have hdd' : ((dq.den : ℕ) : ℚ) ≠ 0 := by exact_mod_cast dq.den_nz
    have e1 : ((uq.num : ℤ) : ℚ) = uq * ((uq.den : ℕ) : ℚ) :=
      (div_eq_iff hud').mp (Rat.num_div_den uq)
    have e2 : ((dq.num : ℤ) : ℚ) = dq * ((dq.den : ℕ) : ℚ) :=
      (div_eq_iff hdd').mp (Rat.num_div_den dq)
    have hA : (((uq.den : ℤ) * dq.num : ℤ) : ℚ) ≠ 0 := by exact_mod_cast hden
    rw [div_eq_div_iff hA hdq]
    push_cast
    rw [e1, e2]
    ring

/-- Decomposition of a successful guarded ratio assignment. -/
lemma ratioStep_cases {r : Record} {den use : Option PyVal} {set : Record → ℤ → Record}
    {r' : Record} (h : ratioStep r den use set = Except.ok r') :
    (truthyOpt den = false ∧ r' = r) ∨
    (∃ u d0 z, truthyOpt den = true ∧ use = some u ∧ den = some d0 ∧
      pyRatioVal u d0 = Except.ok z ∧ r' = set r z) := by
  unfold ratioStep at h
  by_cases ht : truthyOpt den = true
  · rw [if_pos ht] at h
    cases use with
    | none =>
      exfalso
      cases den with
      | none => cases h
      | some d0 => cases h
    | some u =>
      cases den with
      | none => cases h
      | some d0 =>
        cases hz : pyRatioVal u d0 with
        | error e => simp only [hz] at h; cases h
        | ok z =>
          simp only [hz, Except.ok.injEq] at h
          exact Or.inr ⟨u, d0, z, ht, rfl, rfl, hz, h.symm⟩
  · rw [if_neg ht, Except.ok.injEq] at h
    exact Or.inl ⟨Bool.not_eq_true _ ▸ Bool.of_not_eq_true ht, h.symm⟩

lemma exBind_ok_elim {x : Except PyErr Record} {f : Record → Except PyErr Record}
    {y : Record} (h : exBind x f = Except.ok y) :
    ∃ a, x = Except.ok a ∧ f a = Except.ok y := by
  unfold exBind at h
  cases hx : x with
  | error e => rw [hx] at h; cases h
  | ok a => rw [hx] at h; exact ⟨a, rfl, h⟩

/-- Decomposition of the usage-loop record update into its four ratio
steps. -/
lemma usageRecord_ok_elim {r0 : Record} {mu cu : PyVal} {r' : Record}
    (h : usageRecord r0 mu cu = Except.ok r') :
    ∃ r2 r3 r4,
      ratioStep { r0 with memory_usage := some mu, cpu_usage := some cu }
        r0.cpu_requests (some cu) setCpuReqRatio = Except.ok r2 ∧
      ratioStep r2 r2.cpu_limits r2.cpu_usage setCpuLimRatio = Except.ok r3 ∧
      ratioStep r3 r3.memory_requests r3.memory_usage setMemReqRatio = Except.ok r4 ∧
      ratioStep r4 r4.memory_limits r4.memory_usage setMemLimRatio = Except.ok r' := by
  unfold usageRecord at h
  obtain ⟨r2, h1, h⟩ := exBind_ok_elim h
  obtain ⟨r3, h2, h⟩ := exBind_ok_elim h
  obtain ⟨r4, h3, h4⟩ := exBind_ok_elim h
  exact ⟨r2, r3, r4, h1, h2, h3, h4⟩

/-- The usage-loop update sets exactly the two usage fields (to the parsed
values) and leaves the spec-derived fields unchanged. -/
lemma usageRecord_fields {r0 : Record} {mu cu : PyVal} {r' : Record}
    (h : usageRecord r0 mu cu = Except.ok r') :
    r'.memory_usage = some mu ∧ r'.cpu_usage = some cu ∧
    r'.cpu_requests = r0.cpu_requests ∧ r'.cpu_limits = r0.cpu_limits ∧
    r'.memory_requests = r0.memory_requests ∧ r'.memory_limits = r0.memory_limits := by
  obtain ⟨r2, r3, r4, h1, h2, h3, h4⟩ := usageRecord_ok_elim h
  rcases ratioStep_cases h1 with ⟨-, rfl⟩ | ⟨u1, d1, z1, -, -, -, -, rfl⟩ <;>
    rcases ratioStep_cases h2 with ⟨-, rfl⟩ | ⟨u2, d2, z2, -, -, -, -, rfl⟩ <;>
    rcases ratioStep_cases h3 with ⟨-, rfl⟩ | ⟨u3, d3, z3, -, -, -, -, rfl⟩ <;>
    rcases ratioStep_cases h4 with ⟨-, rfl⟩ | ⟨u4, d4, z4, -, -, -, -, rfl⟩ <;>
    exact ⟨rfl, rfl, rfl, rfl, rfl, rfl⟩

/-- Successful parses are "shaped": a truthy result is numeric. -/
lemma parse_memory_ok_shape {v w : PyVal} (h : parse_memory v = Except.ok w) :
    (∃ n : ℤ, w = PyVal.int n) ∨ (w = v ∧ truthy v = false) := by
  unfold parse_memory at h
  by_cases ht : truthy v = true
  · rw [if_pos ht] at h
    cases v with
    | none => cases h
    | int n => cases h
    | float q => cases h
    | str s =>
      simp only [] at h
      repeat' split at h
      all_goals
        (first
          | exact Or.inl ⟨_, rfl⟩
          | contradiction
          | (rw [Except.ok.injEq] at h; exact Or.inl ⟨_, h.symm⟩))
  · rw [if_neg ht, Except.ok.injEq] at h
    exact Or.inr ⟨h.symm, Bool.of_not_eq_true ht⟩

/-- Successful cpu parses are "shaped": a truthy result is numeric. -/
lemma parse_cpu_ok_shape {v w : PyVal} (h : parse_cpu v = Except.ok w) :
    (∃ n : ℤ, w = PyVal.int n) ∨ (∃ q : ℚ, w = PyVal.float q) ∨
    (w = v ∧ truthy v = false) := by
  unfold parse_cpu at h
  by_cases ht : truthy v = true
  · rw [if_pos ht] at h
    cases v with
    | none => cases h
    | int n => cases h
    | float q => cases h
    | str s =>
      simp only [] at h
      repeat' split at h
      all_goals
        (first
          | exact Or.inl ⟨_, rfl⟩
          | exact Or.inr (Or.inl ⟨_, rfl⟩)
          | contradiction
          | (rw [Except.ok.injEq] at h; exact Or.inl ⟨_, h.symm⟩)
          | (rw [Except.ok.injEq] at h; exact Or.inr (Or.inl ⟨_, h.symm⟩)))
  · rw [if_neg ht, Except.ok.injEq] at h
    exact Or.inr (Or.inr ⟨h.symm, Bool.of_not_eq_true ht⟩)

lemma parse_memory_shapedOpt {v w : PyVal} (h : parse_memory v = Except.ok w) :
    shapedOpt (some w) := by
  intro x hx htx
  rw [Option.some.injEq] at hx
  subst hx
  rcases parse_memory_ok_shape h with ⟨n, rfl⟩ | ⟨rfl, hf⟩
  · simp [asRat]
  · rw [htx] at hf; cases hf

lemma parse_cpu_shapedOpt {v w : PyVal} (h : parse_cpu v = Except.ok w) :
    shapedOpt (some w) := by
  intro x hx htx
  rw [Option.some.injEq] at hx
  subst hx
  rcases parse_cpu_ok_shape h with ⟨n, rfl⟩ | ⟨q, rfl⟩ | ⟨rfl, hf⟩
  · simp [asRat]
  · simp [asRat]
  · rw [htx] at hf; cases hf

lemma shapedOpt_none : shapedOpt Option.none := by
  intro v hv
  cases hv

lemma ratioOk_none_none (den : Option PyVal) : ratioOk Option.none Option.none den := by
  constructor
  · simp
  · intro z hz
    cases hz

/-- A ratio field left untouched by a falsy-denominator guard stays absent
and keeps the invariant. -/
lemma ratioOk_untouched {ratio0 den : Option PyVal} (u : PyVal)
    (hf : truthyOpt den = false)
    (hprev : ratio0.isSome → ∃ d dq, den = some d ∧ asRat d = some dq ∧ dq ≠ 0) :
    ratioOk ratio0 (some u) den := by
  have hnone : ratio0 = Option.none := by
    cases hr : ratio0 with
    | none => rfl
    | some z =>
      exact absurd (hprev (by rw [hr]; rfl)) (truthyOpt_false_no_nonzero hf)
  subst hnone
  refine ⟨⟨fun hs => absurd hs Bool.false_ne_true,
    fun hs => absurd hs.2 (truthyOpt_false_no_nonzero hf)⟩, fun z hz => by cases hz⟩

/-- A freshly computed ratio field satisfies the invariant. -/
lemma ratioOk_computed {den : Option PyVal} {u d0 : PyVal} {z : ℤ}
    (hden : den = some d0) (hz : pyRatioVal u d0 = Except.ok z) :
    ratioOk (some (PyVal.int z)) (some u) den := by
  obtain ⟨uq, dq, hu, hd, hdq, rfl⟩ := pyRatioVal_ok_elim hz
  subst hden
  constructor
  · simp only [Option.isSome_some, true_iff, true_and]
    exact ⟨d0, dq, rfl, hd, hdq⟩
  · rintro z' hz'
    rw [Option.some.injEq] at hz'
    exact ⟨u, uq, d0, dq, rfl, hu, rfl, hd, hdq, hz'.symm⟩

/-- The usage-loop record update preserves the record invariant. -/
lemma usageRecord_inv {r0 : Record} (hInv : recInv r0) {mu cu : PyVal} {r' : Record}
    (h : usageRecord r0 mu cu = Except.ok r') : recInv r' := by
  obtain ⟨hs1, hs2, hs3, hs4, hq1, hq2, hq3, hq4⟩ := hInv
  obtain ⟨r2, r3, r4, h1, h2, h3, h4⟩ := usageRecord_ok_elim h
  have hS1 : r2.cpu_usage = some cu ∧ r2.memory_usage = some mu ∧
      r2.cpu_requests = r0.cpu_requests ∧ r2.cpu_limits = r0.cpu_limits ∧
      r2.memory_requests = r0.memory_requests ∧ r2.memory_limits = r0.memory_limits ∧
      r2.cpu_limits_ratio = r0.cpu_limits_ratio ∧
      r2.memory_requests_ratio = r0.memory_requests_ratio ∧
      r2.memory_limits_ratio = r0.memory_limits_ratio ∧
      ratioOk r2.cpu_requests_ratio (some cu) r0.cpu_requests := by
    rcases ratioStep_cases h1 with ⟨hf, rfl⟩ | ⟨u1, d1, z1, ht1, hu1, hd1, hz1, rfl⟩
    · exact ⟨rfl, rfl, rfl, rfl, rfl, rfl, rfl, rfl, rfl,
        ratioOk_untouched cu hf (fun hs => (hq1.1.mp hs).2)⟩
    · rw [Option.some.injEq] at hu1
      subst hu1
      exact ⟨rfl, rfl, rfl, rfl, rfl, rfl, rfl, rfl, rfl, ratioOk_computed hd1 hz1⟩
  obtain ⟨e1, e2, e3, e4, e5, e6, e7, e8, e9, hOk1⟩ := hS1
  have hS2 : r3.cpu_usage = some cu ∧ r3.memory_usage = some mu ∧
      r3.cpu_requests = r0.cpu_requests ∧ r3.cpu_limits = r0.cpu_limits ∧
      r3.memory_requests = r0.memory_requests ∧ r3.memory_limits = r0.memory_limits ∧
      r3.cpu_requests_ratio = r2.cpu_requests_ratio ∧
      r3.memory_requests_ratio = r0.memory_requests_ratio ∧
      r3.memory_limits_ratio = r0.memory_limits_ratio ∧
      ratioOk r3.cpu_limits_ratio (some cu) r0.cpu_limits := by
    rcases ratioStep_cases h2 with ⟨hf, rfl⟩ | ⟨u2, d2, z2, ht2, hu2, hd2, hz2, rfl⟩
    · rw [e4] at hf
      refine ⟨e1, e2, e3, e4, e5, e6, rfl, e8, e9, ?_⟩
      rw [e7]
      exact ratioOk_untouched cu hf (fun hs => (hq2.1.mp hs).2)
    · rw [e1, Option.some.injEq] at hu2
      subst hu2
      rw [e4] at hd2
      exact ⟨e1, e2, e3, e4, e5, e6, rfl, e8, e9, ratioOk_computed hd2 hz2⟩
  obtain ⟨f1, f2, f3, f4, f5, f6, f7, f8, f9, hOk2⟩ := hS2
  have hS3 : r4.cpu_usage = some cu ∧ r4.memory_usage = some mu ∧
      r4.cpu_requests = r0.cpu_requests ∧ r4.cpu_limits = r0.cpu_limits ∧
      r4.memory_requests = r0.memory_requests ∧ r4.memory_limits = r0.memory_limits ∧
      r4.cpu_requests_ratio = r2.cpu_requests_ratio ∧
      r4.cpu_limits_ratio = r3.cpu_limits_ratio ∧
      r4.memory_limits_ratio = r0.memory_limits_ratio ∧
      ratioOk r4.memory_requests_ratio (some mu) r0.memory_requests := by
    rcases ratioStep_cases h3 with ⟨hf, rfl⟩ | ⟨u3, d3, z3, ht3, hu3, hd3, hz3, rfl⟩
    · rw [f5] at hf
      refine ⟨f1, f2, f3, f4, f5, f6, f7, rfl, f9, ?_⟩
      rw [f8]
      exact ratioOk_untouched mu hf (fun hs => (hq3.1.mp hs).2)
    · rw [f2, Option.some.injEq] at hu3
      subst hu3
      rw [f5] at hd3
      exact ⟨f1, f2, f3, f4, f5, f6, f7, rfl, f9, ratioOk_computed hd3 hz3⟩
  obtain ⟨g1, g2, g3, g4, g5, g6, g7, g8, g9, hOk3⟩ := hS3
  have hS4 : r'.cpu_usage = some cu ∧ r'.memory_usage = some mu ∧
      r'.cpu_requests = r0.cpu_requests ∧ r'.cpu_limits = r0.cpu_limits ∧
      r'.memory_requests = r0.memory_requests ∧ r'.memory_limits = r0.memory_limits ∧
      r'.cpu_requests_ratio = r2.cpu_requests_ratio ∧
      r'.cpu_limits_ratio = r3.cpu_limits_ratio ∧
      r'.memory_requests_ratio = r4.memory_requests_ratio ∧
      ratioOk r'.memory_limits_ratio (some mu) r0.memory_limits := by
    rcases ratioStep_cases h4 with ⟨hf, rfl⟩ | ⟨u4, d4, z4, ht4, hu4, hd4, hz4, rfl⟩
    · rw [g6] at hf
      refine ⟨g1, g2, g3, g4, g5, g6, g7, g8, rfl, ?_⟩
      rw [g9]
      exact ratioOk_untouched mu hf (fun hs => (hq4.1.mp hs).2)
    · rw [g2, Option.some.injEq] at hu4
      subst hu4
      rw [g6] at hd4
      exact ⟨g1, g2, g3, g4, g5, g6, g7, g8, rfl, ratioOk_computed hd4 hz4⟩
  obtain ⟨k1, k2, k3, k4, k5, k6, k7, k8, k9, hOk4⟩ := hS4
  refine ⟨?_, ?_, ?_, ?_, ?_, ?_, ?_, ?_⟩
  · rw [k3]; exact hs1
  · rw [k4]; exact hs2
  · rw [k5]; exact hs3
  · rw [k6]; exact hs4
  · rw [k7, k1, k3]; exact hOk1
  · rw [k8, k1, k4]; exact hOk2
  · rw [k9, k2, k5]; exact hOk3
  · rw [k2, k6]; exact hOk4

lemma recInv_specLike {cl ml cr mr : Option PyVal}
    (h1 : shapedOpt cr) (h2 : shapedOpt cl) (h3 : shapedOpt mr) (h4 : shapedOpt ml) :
    recInv { cpu_limits := cl, memory_limits := ml, cpu_requests := cr,
             memory_requests := mr } := by
  refine ⟨h1, h2, h3, h4, ?_, ?_, ?_, ?_⟩ <;> exact ratioOk_none_none _

/-- A record built by the spec loop satisfies the invariant and has all
usage and ratio fields absent. -/
lemma specRecord_ok_shape {c : ContainerSpec} {r : Record}
    (h : specRecord c = Except.ok r) :
    recInv r ∧ r.cpu_usage = Option.none ∧ r.memory_usage = Option.none ∧
    r.cpu_requests_ratio = Option.none ∧ r.cpu_limits_ratio = Option.none ∧
    r.memory_requests_ratio = Option.none ∧ r.memory_limits_ratio = Option.none := by
  unfold specRecord at h
  cases hres : c.resources with
  | none =>
    simp only [hres, Except.ok.injEq] at h
    subst h
    exact ⟨recInv_specLike shapedOpt_none shapedOpt_none shapedOpt_none shapedOpt_none,
      rfl, rfl, rfl, rfl, rfl, rfl⟩
  | some res =>
    simp only [hres] at h
    cases hlim : res.limits with
    | none =>
      simp only [hlim] at h
      cases hreq : res.requests with
      | none =>
        simp only [hreq, Except.ok.injEq] at h
        subst h
        exact ⟨recInv_specLike shapedOpt_none shapedOpt_none shapedOpt_none shapedOpt_none,
          rfl, rfl, rfl, rfl, rfl, rfl⟩
      | some req =>
        simp only [hreq] at h
        cases hcr : parse_cpu req.cpu with
        | error e => simp only [hcr] at h; cases h
        | ok cr =>
          simp only [hcr] at h
          cases hmr : parse_memory req.memory with
          | error e => simp only [hmr] at h; cases h
          | ok mr =>
            simp only [hmr, Except.ok.injEq] at h
            subst h
            exact ⟨recInv_specLike (parse_cpu_shapedOpt hcr) shapedOpt_none
              (parse_memory_shapedOpt hmr) shapedOpt_none, rfl, rfl, rfl, rfl, rfl, rfl⟩
    | some lim =>
      simp only [hlim] at h
      cases hcl : parse_cpu lim.cpu with
      | error e => simp only [hcl] at h; cases h
      | ok cl =>
        simp only [hcl] at h
        cases hml : parse_memory lim.memory with
        | error e => simp only [hml] at h; cases h
        | ok ml =>
          simp only [hml] at h
          cases hreq : res.requests with
          | none =>
            simp only [hreq, Except.ok.injEq] at h
            subst h
            exact ⟨recInv_specLike shapedOpt_none (parse_cpu_shapedOpt hcl)
              shapedOpt_none (parse_memory_shapedOpt hml), rfl, rfl, rfl, rfl, rfl, rfl⟩
          | some req =>
            simp only [hreq] at h
            cases hcr : parse_cpu req.cpu with
            | error e => simp only [hcr] at h; cases h
            | ok cr =>
              simp only [hcr] at h
              cases hmr : parse_memory req.memory with
              | error e => simp only [hmr] at h; cases h
              | ok mr =>
                simp only [hmr, Except.ok.injEq] at h
                subst h
                exact ⟨recInv_specLike (parse_cpu_shapedOpt hcr) (parse_cpu_shapedOpt hcl)
                  (parse_memory_shapedOpt hmr) (parse_memory_shapedOpt hml),
                  rfl, rfl, rfl, rfl, rfl, rfl⟩

lemma dictInv_nil : dictInv [] := by
  intro k r h
  cases h

lemma dictInv_alSet {d : CDict} {k : String} {r : Record}
    (hd : dictInv d) (hr : recInv r) : dictInv (alSet d k r) := by
  intro k' r' h
  rw [alGet_alSet] at h
  by_cases he : k = k'
  · rw [if_pos he, Option.some.injEq] at h
    subst h
    exact hr
  · rw [if_neg he] at h
    exact hd k' r' h

lemma specFold_dictInv :
    ∀ {cs : List ContainerSpec} {d0 d : CDict}, specFold cs d0 = Except.ok d →
    dictInv d0 → dictInv d := by
  intro cs
  induction cs with
  | nil => intro d0 d h hd; cases h; exact hd
  | cons c cs' ih =>
    intro d0 d h hd
    obtain ⟨r, hr, h2⟩ := specFold_ok_cons h
    exact ih h2 (dictInv_alSet hd (specRecord_ok_shape hr).1)

lemma usageFold_dictInv :
    ∀ {mcs : List MetricContainer} {d d' : CDict}, usageFold mcs d = Except.ok d' →
    dictInv d → dictInv d' := by
  intro mcs
  induction mcs with
  | nil => intro d d' h hd; cases h; exact hd
  | cons mc mcs' ih =>
    intro d d' h hd
    obtain ⟨d1, h1, h2⟩ := usageFold_ok_cons h
    obtain ⟨mu, r0, cu, r, -, hr0, -, hur, rfl⟩ := applyUsage_ok_elim h1
    exact ih h2 (dictInv_alSet hd (usageRecord_inv (hd _ _ hr0) hur))

lemma podDict_dictInv {fetch : UsageSource} {p : Pod} {d : CDict}
    (h : podDict fetch p = Except.ok d) : dictInv d := by
  unfold podDict at h
  cases hs : specFold p.containers [] with
  | error e => rw [hs] at h; cases h
  | ok d0 =>
    rw [hs] at h
    have hd0 : dictInv d0 := specFold_dictInv hs dictInv_nil
    cases hf : fetch p.ns p.name with
    | none => rw [hf] at h; cases h; exact hd0
    | some mcs => rw [hf] at h; exact usageFold_dictInv h hd0

lemma repInv_nil : repInv [] := by
  intro ns pd cn r h
  cases h

lemma repInv_setPod {out : Report} {ns pd : String} {d : CDict}
    (ho : repInv out) (hd : dictInv d) : repInv (setPod out ns pd d) := by
  intro ns' pd' cn r h
  unfold lookup3 at h
  rw [alGet2_setPod] at h
  by_cases hk : ns = ns' ∧ pd = pd'
  · rw [if_pos hk] at h
    exact hd cn r h
  · rw [if_neg hk] at h
    exact ho ns' pd' cn r h

lemma aggAux_repInv {fetch : UsageSource} :
    ∀ {ps : List Pod} {out rep : Report}, aggAux fetch ps out = Except.ok rep →
    repInv out → repInv rep := by
  intro ps
  induction ps with
  | nil => intro out rep h ho; cases h; exact ho
  | cons p ps' ih =>
    intro out rep h ho
    rw [aggAux] at h
    cases hp : processPod fetch out p with
    | error e => rw [hp] at h; cases h
    | ok out1 =>
      rw [hp] at h
      obtain ⟨d, hd, rfl⟩ := processPod_ok_elim hp
      exact ih h (repInv_setPod ho (podDict_dictInv hd))

/-- Every record in a successfully aggregated report satisfies the
invariant. -/
lemma aggregate_repInv {fetch : UsageSource} {pods : List Pod} {rep : Report}
    (h : aggregate fetch pods = Except.ok rep) : repInv rep :=
  aggAux_repInv h repInv_nil

/-!
## Lemmas: the aggregation never raises `ZeroDivisionError`
-/

lemma pyRatioVal_guarded_ne {u d0 : PyVal} (ht : truthy d0 = true) :
    pyRatioVal u d0 ≠ Except.error PyErr.zeroDivisionError := by
  unfold pyRatioVal
  cases hu : asRat u with
  | none => intro h; simp at h
  | some uq =>
    cases hd : asRat d0 with
    | none => intro h; simp at h
    | some dq =>
      simp only []
      rw [if_neg (truthy_asRat_ne_zero ht hd)]
      intro h
      cases h

lemma ratioStep_ne_zeroDiv (r : Record) (den use : Option PyVal)
    (set : Record → ℤ → Record) :
    ratioStep r den use set ≠ Except.error PyErr.zeroDivisionError := by
  unfold ratioStep
  by_cases ht : truthyOpt den = true
  · rw [if_pos ht]
    cases use with
    | none =>
      cases den with
      | none => intro h; cases h
      | some d0 => intro h; cases h
    | some u =>
      cases den with
      | none => intro h; cases h
      | some d0 =>
        have htd : truthy d0 = true := ht
        cases hz : pyRatioVal u d0 with
        | error e =>
          intro h
          simp only [hz, Except.error.injEq] at h
          subst h
          exact pyRatioVal_guarded_ne htd hz
        | ok z => intro h; simp [hz] at h
  · rw [if_neg ht]
    intro h
    cases h

lemma exBind_ne_zeroDiv {x : Except PyErr Record} {f : Record → Except PyErr Record}
    (hx : x ≠ Except.error PyErr.zeroDivisionError)
    (hf : ∀ a, f a ≠ Except.error PyErr.zeroDivisionError) :
    exBind x f ≠ Except.error PyErr.zeroDivisionError := by
  unfold exBind
  cases x with
  | error e => exact hx
  | ok a => exact hf a

lemma usageRecord_ne_zeroDiv (r0 : Record) (mu cu : PyVal) :
    usageRecord r0 mu cu ≠ Except.error PyErr.zeroDivisionError := by
  unfold usageRecord
  exact exBind_ne_zeroDiv (ratioStep_ne_zeroDiv _ _ _ _) (fun r2 =>
    exBind_ne_zeroDiv (ratioStep_ne_zeroDiv _ _ _ _) (fun r3 =>
      exBind_ne_zeroDiv (ratioStep_ne_zeroDiv _ _ _ _) (fun r4 =>
        ratioStep_ne_zeroDiv _ _ _ _)))

lemma parse_memory_ne_zeroDiv (v : PyVal) :
    parse_memory v ≠ Except.error PyErr.zeroDivisionError := by
  intro h
  unfold parse_memory at h
  by_cases ht : truthy v = true
  · rw [if_pos ht] at h
    cases v with
    | none => cases h
    | int n => cases h
    | float q => cases h
    | str s =>
      simp only [] at h
      repeat' split at h
      all_goals simp at h
  · rw [if_neg ht] at h
    cases h

lemma parse_cpu_ne_zeroDiv (v : PyVal) :
    parse_cpu v ≠ Except.error PyErr.zeroDivisionError := by
  intro h
  unfold parse_cpu at h
  by_cases ht : truthy v = true
  · rw [if_pos ht] at h
    cases v with
    | none => cases h
    | int n => cases h
    | float q => cases h
    | str s =>
      simp only [] at h
      repeat' split at h
      all_goals simp at h
  · rw [if_neg ht] at h
    cases h

lemma applyUsage_ne_zeroDiv (d : CDict) (mc : MetricContainer) :
    applyUsage d mc ≠ Except.error PyErr.zeroDivisionError := by
  intro h
  unfold applyUsage at h
  cases hm : parse_memory mc.usageMemory with
  | error e =>
    simp only [hm, Except.error.injEq] at h
    subst h
    exact parse_memory_ne_zeroDiv _ hm
  | ok mu =>
    simp only [hm] at h
    cases hg : alGet d mc.name with
    | none => simp [hg] at h
    | some r0 =>
      simp only [hg] at h
      cases hc : parse_cpu mc.usageCpu with
      | error e =>
        simp only [hc, Except.error.injEq] at h
        subst h
        exact parse_cpu_ne_zeroDiv _ hc
      | ok cu =>
        simp only [hc] at h
        cases hu : usageRecord r0 mu cu with
        | error e =>
          simp only [hu, Except.error.injEq] at h
          subst h
          exact usageRecord_ne_zeroDiv _ _ _ hu
        | ok r => simp [hu] at h

lemma specRecord_ne_zeroDiv (c : ContainerSpec) :
    specRecord c ≠ Except.error PyErr.zeroDivisionError := by
  intro h
  unfold specRecord at h
  cases hres : c.resources with
  | none => simp only [hres] at h; cases h
  | some res =>
    simp only [hres] at h
    cases hlim : res.limits with
    | none =>
      simp only [hlim] at h
      cases hreq : res.requests with
      | none => simp only [hreq] at h; cases h
      | some req =>
        simp only [hreq] at h
        cases hcr : parse_cpu req.cpu with
        | error e =>
          simp only [hcr, Except.error.injEq] at h
          subst h
          exact parse_cpu_ne_zeroDiv _ hcr
        | ok cr =>
          simp only [hcr] at h
          cases hmr : parse_memory req.memory with
          | error e =>
            simp only [hmr, Except.error.injEq] at h
            subst h
            exact parse_memory_ne_zeroDiv _ hmr
          | ok mr => simp only [hmr] at h; cases h
    | some lim =>
      simp only [hlim] at h
      cases hcl : parse_cpu lim.cpu with
      | error e =>
        simp only [hcl, Except.error.injEq] at h
        subst h
        exact parse_cpu_ne_zeroDiv _ hcl
      | ok cl =>
        simp only [hcl] at h
        cases hml : parse_memory lim.memory with
        | error e =>
          simp only [hml, Except.error.injEq] at h
          subst h
          exact parse_memory_ne_zeroDiv _ hml
        | ok ml =>
          simp only [hml] at h
          cases hreq : res.requests with
          | none => simp only [hreq] at h; cases h
          | some req =>
            simp only [hreq] at h
            cases hcr : parse_cpu req.cpu with
            | error e =>
              simp only [hcr, Except.error.injEq] at h
              subst h
              exact parse_cpu_ne_zeroDiv _ hcr
            | ok cr =>
              simp only [hcr] at h
              cases hmr : parse_memory req.memory with
              | error e =>
                simp only [hmr, Except.error.injEq] at h
                subst h
                exact parse_memory_ne_zeroDiv _ hmr
              | ok mr => simp only [hmr] at h; cases h

lemma specFold_ne_zeroDiv :
    ∀ (cs : List ContainerSpec) (d0 : CDict),
    specFold cs d0 ≠ Except.error PyErr.zeroDivisionError := by
  intro cs
  induction cs with
  | nil => intro d0 h; cases h
  | cons c cs' ih =>
    intro d0 h
    rw [specFold] at h
    cases hr : specRecord c with
    | error e =>
      rw [hr] at h
      rw [Except.error.injEq] at h
      subst h
      exact specRecord_ne_zeroDiv _ hr
    | ok r =>
      rw [hr] at h
      exact ih _ h

lemma usageFold_ne_zeroDiv :
    ∀ (mcs : List MetricContainer) (d : CDict),
    usageFold mcs d ≠ Except.error PyErr.zeroDivisionError := by
  intro mcs
  induction mcs with
  | nil => intro d h; cases h
  | cons mc mcs' ih =>
    intro d h
    rw [usageFold] at h
    cases ha : applyUsage d mc with
    | error e =>
      rw [ha] at h
      rw [Except.error.injEq] at h
      subst h
      exact applyUsage_ne_zeroDiv _ _ ha
    | ok d1 =>
      rw [ha] at h
      exact ih _ h

lemma podDict_ne_zeroDiv (fetch : UsageSource) (p : Pod) :
    podDict fetch p ≠ Except.error PyErr.zeroDivisionError := by
  intro h
  unfold podDict at h
  cases hs : specFold p.containers [] with
  | error e =>
    simp only [hs, Except.error.injEq] at h
    subst h
    exact specFold_ne_zeroDiv _ _ hs
  | ok d0 =>
    simp only [hs] at h
    cases hf : fetch p.ns p.name with
    | none => simp only [hf] at h; cases h
    | some mcs =>
      simp only [hf] at h
      exact usageFold_ne_zeroDiv _ _ h

lemma aggAux_ne_zeroDiv (fetch : UsageSource) :
    ∀ (ps : List Pod) (out : Report),
    aggAux fetch ps out ≠ Except.error PyErr.zeroDivisionError := by
  intro ps
  induction ps with
  | nil => intro out h; cases h
  | cons p ps' ih =>
    intro out h
    rw [aggAux] at h
    cases hp : processPod fetch out p with
    | error e =>
      rw [hp] at h
      rw [Except.error.injEq] at h
      subst h
      unfold processPod at hp
      cases hd : podDict fetch p with
      | error e' =>
        rw [hd] at hp
        rw [Except.error.injEq] at hp
        subst hp
        exact podDict_ne_zeroDiv _ _ hd
      | ok d => rw [hd] at hp; cases hp
    | ok out1 =>
      rw [hp] at h
      exact ih _ h

lemma lookup3_eq {rep : Report} {ns pd : String} {d : CDict}
    (h : alGet2 rep ns pd = some d) (cn : String) :
    lookup3 rep ns pd cn = alGet d cn := by
  unfold lookup3
  rw [h]

lemma alGet_mem {α : Type} : ∀ {l : AList α} {k : String} {v : α},
    alGet l k = some v → (k, v) ∈ l := by
  intro l
  induction l with
  | nil => intro k v h; cases h
  | cons kv rest ih =>
    intro k v h
    obtain ⟨k', v'⟩ := kv
    rw [alGet] at h
    by_cases he : k' = k
    · rw [if_pos he, Option.some.injEq] at h
      subst he
      subst h
      exact List.mem_cons_self _ _
    · rw [if_neg he] at h
      exact List.mem_cons_of_mem _ (ih h)

/-- Every record the report holds yields one CSV row. -/
lemma csvRows_mem {rep : Report} {ns pd cn : String} {r : Record}
    (h : lookup3 rep ns pd cn = some r) :
    (ns, pd, cn, csvCells r) ∈ csvRows rep := by
  unfold lookup3 alGet2 at h
  cases hn : alGet rep ns with
  | none => simp only [hn] at h; cases h
  | some nsd =>
    simp only [hn] at h
    cases hp : alGet nsd pd with
    | none => simp only [hp] at h; cases h
    | some cd =>
      simp only [hp] at h
      refine List.mem_flatMap.mpr ⟨(ns, nsd), alGet_mem hn, ?_⟩
      refine List.mem_flatMap.mpr ⟨(pd, cd), alGet_mem hp, ?_⟩
      exact List.mem_map.mpr ⟨(cn, r), alGet_mem h, rfl⟩

lemma jsonOpt_mem {k n : String} {v : PyVal} {o : Option PyVal} :
    (k, v) ∈ jsonOpt n o ↔ (k = n ∧ o = some v) := by
  cases o with
  | none => simp [jsonOpt]
  | some w =>
    simp only [jsonOpt, List.mem_singleton, Prod.mk.injEq, Option.some.injEq]
    constructor
    · rintro ⟨rfl, rfl⟩
      exact ⟨rfl, rfl⟩
    · rintro ⟨rfl, rfl⟩
      exact ⟨rfl, rfl⟩

/-!
## Claim theorems: the ratio invariant (C3)
-/

/-- **C3 (counterexample).** With a negative usage quantity the stored ratio
is Python's `int()` truncation toward zero, not the floor: usage `-1m`
against requests `3m` stores `-33`, while `⌊100·(-1)/3⌋ = -34`. -/
theorem report_ratio_floor_counterexample :
    aggregate c3fetch c3pods = Except.ok c3rep ∧
    (lookup3 c3rep "n" "p" "c").map (fun r => r.cpu_usage) =
      some (some (PyVal.int (-1))) ∧
    (lookup3 c3rep "n" "p" "c").map (fun r => r.cpu_requests) =
      some (some (PyVal.int 3)) ∧
    (lookup3 c3rep "n" "p" "c").map (fun r => r.cpu_requests_ratio) =
      some (some (PyVal.int (-33))) ∧
    ⌊(100 * (-1 : ℚ) / 3)⌋ = -34 ∧ ((-33 : ℤ) ≠ -34) := by
  have hq : (100 * (-1 : ℚ) / 3) = mkRat (-100) 3 := by
    rw [Rat.mkRat_eq_div]
    norm_num
  refine ⟨by decide, by decide, by decide, by decide, ?_, by decide⟩
  rw [hq]
  decide

/-- **C3 (amended).** For every ContainerRecord in the final Report and each
of the four ratio fields: the ratio is present iff the corresponding usage
field is present and the denominator holds a nonzero numeric value; a
present ratio equals Python `int()` truncation toward zero of
`100·usage/denominator` (which coincides with the floor whenever the
quotient is nonnegative, in particular for all nonnegative quantities); and
no input whatsoever can make the aggregation fault with a
`ZeroDivisionError`. -/
theorem report_ratio_invariant :
    (∀ (fetch : UsageSource) (pods : List Pod) (rep : Report),
      aggregate fetch pods = Except.ok rep →
      ∀ ns pd cn r, lookup3 rep ns pd cn = some r →
        ratioOk r.cpu_requests_ratio r.cpu_usage r.cpu_requests ∧
        ratioOk r.cpu_limits_ratio r.cpu_usage r.cpu_limits ∧
        ratioOk r.memory_requests_ratio r.memory_usage r.memory_requests ∧
        ratioOk r.memory_limits_ratio r.memory_usage r.memory_limits) ∧
    (∀ q : ℚ, 0 ≤ q → truncRat q = ⌊q⌋) ∧
    (∀ (fetch : UsageSource) (pods : List Pod),
      aggregate fetch pods ≠ Except.error PyErr.zeroDivisionError) := by
  refine ⟨?_, ?_, ?_⟩
  · intro fetch pods rep h ns pd cn r hl
    have hi := aggregate_repInv h ns pd cn r hl
    exact ⟨hi.2.2.2.2.1, hi.2.2.2.2.2.1, hi.2.2.2.2.2.2.1, hi.2.2.2.2.2.2.2⟩
  · intro q hq
    rw [truncRat, if_pos hq]
  · intro fetch pods
    exact aggAux_ne_zeroDiv fetch pods []

/-- Witness for the amended C3: a concrete run in which `cpu_requests_ratio`
is 100 and `memory_requests_ratio` is 50. -/
theorem report_ratio_invariant_witness :
    aggregate c3wfetch c3wpods = Except.ok c3wrep ∧
    lookup3 c3wrep "ns1" "web-0" "app" = some c3wrec ∧
    c3wrec.cpu_requests_ratio = some (PyVal.int 100) ∧
    c3wrec.memory_requests_ratio = some (PyVal.int 50) ∧
    c3wrec.cpu_limits_ratio = Option.none ∧
    (ratioOk c3wrec.cpu_requests_ratio c3wrec.cpu_usage c3wrec.cpu_requests ∧
     ratioOk c3wrec.cpu_limits_ratio c3wrec.cpu_usage c3wrec.cpu_limits ∧
     ratioOk c3wrec.memory_requests_ratio c3wrec.memory_usage c3wrec.memory_requests ∧
     ratioOk c3wrec.memory_limits_ratio c3wrec.memory_usage c3wrec.memory_limits) :=
  ⟨by decide, by decide, by decide, by decide, by decide,
   report_ratio_invariant.1 c3wfetch c3wpods c3wrep (by decide)
     "ns1" "web-0" "app" c3wrec (by decide)⟩

/-!
## Claim theorems: skipping unavailable usage (C4), usage-only containers
(C5), empty records (C10)
-/

/-- **C4.** When the usage fetch for a workload instance fails
(`ApiException`, modelled as `Option.none`), the run is not aborted by it:
the pod's dict is exactly what pure spec processing produces, so every
container of that instance keeps its spec-derived record unchanged while
`cpu_usage`, `memory_usage` and all four ratio fields stay absent. -/
theorem usage_error_skips_instance (fetch : UsageSource) (pods : List Pod) (rep : Report)
    (hagg : aggregate fetch pods = Except.ok rep) (hdist : podsDistinct pods)
    (p : Pod) (hp : p ∈ pods) (hcd : containersDistinct p)
    (hf : fetch p.ns p.name = Option.none) :
    podDict fetch p = specFold p.containers [] ∧
    ∀ c ∈ p.containers, ∃ r, specRecord c = Except.ok r ∧
      lookup3 rep p.ns p.name c.name = some r ∧
      r.cpu_usage = Option.none ∧ r.memory_usage = Option.none ∧
      r.cpu_requests_ratio = Option.none ∧ r.cpu_limits_ratio = Option.none ∧
      r.memory_requests_ratio = Option.none ∧ r.memory_limits_ratio = Option.none := by
  have hpod : podDict fetch p = specFold p.containers [] := by
    unfold podDict
    cases hs : specFold p.containers [] with
    | error e => rfl
    | ok d0 => rw [hf]
  refine ⟨hpod, fun c hc => ?_⟩
  obtain ⟨d, hd, hget⟩ := aggregate_lookup hagg hdist hp
  rw [hpod] at hd
  obtain ⟨r, hr, hget2⟩ := specFold_lookup hd hcd c hc
  have hshape := specRecord_ok_shape hr
  exact ⟨r, hr, by rw [lookup3_eq hget]; exact hget2, hshape.2.1, hshape.2.2.1,
    hshape.2.2.2.1, hshape.2.2.2.2.1, hshape.2.2.2.2.2.1, hshape.2.2.2.2.2.2⟩

/-- Witness for C4: one pod with `requests.cpu = 250m` whose metrics fetch
fails; the record keeps `cpu_requests = 250` and has no usage or ratios. -/
theorem usage_error_skips_instance_witness :
    aggregate c4fetch c4pods = Except.ok c4rep ∧
    lookup3 c4rep "ns1" "web-0" "app" = some c4rec ∧
    c4rec.cpu_requests = some (PyVal.int 250) ∧
    c4rec.cpu_usage = Option.none ∧ c4rec.memory_usage = Option.none ∧
    c4rec.cpu_requests_ratio = Option.none := by
  have h := usage_error_skips_instance c4fetch c4pods c4rep (by decide)
    (by simp [podsDistinct, c4pods])
    ⟨"ns1", "web-0", [⟨"app", some ⟨Option.none,
      some ⟨PyVal.str "250m", PyVal.none⟩⟩⟩]⟩ (by decide)
    (by simp [containersDistinct]) rfl
  obtain ⟨-, h2⟩ := h
  obtain ⟨r, -, hl, hcu, hmu, hrr, -, -, -⟩ :=
    h2 ⟨"app", some ⟨Option.none, some ⟨PyVal.str "250m", PyVal.none⟩⟩⟩ (by decide)
  have hld : lookup3 c4rep "ns1" "web-0" "app" = some c4rec := by decide
  rw [hld, Option.some.injEq] at hl
  subst hl
  exact ⟨by decide, hld, by decide, hcu, hmu, hrr⟩

/-- **C5 (counterexample).** A container reported by the usage source but
absent from the pod spec does *not* get a fresh record: line 118 indexes the
container dict directly, so the whole run faults with `KeyError` and no
report is produced. -/
theorem usage_only_container_counterexample :
    aggregate c5fetch c5pods = Except.error PyErr.keyError := by decide

/-- **C5 (amended).** For every container observed in the usage source, a
*successful* run implies that container was declared in the pod spec (the
record is fetched, never created), and its final record carries the parsed
usage values. -/
theorem usage_container_requires_spec (fetch : UsageSource) (pods : List Pod)
    (rep : Report) (hagg : aggregate fetch pods = Except.ok rep)
    (hdist : podsDistinct pods) (p : Pod) (hp : p ∈ pods)
    (mcs : List MetricContainer) (hf : fetch p.ns p.name = some mcs)
    (hmd : metricsDistinct mcs) (mc : MetricContainer) (hmc : mc ∈ mcs) :
    (∃ c ∈ p.containers, c.name = mc.name) ∧
    ∃ r mu cu, parse_memory mc.usageMemory = Except.ok mu ∧
      parse_cpu mc.usageCpu = Except.ok cu ∧
      lookup3 rep p.ns p.name mc.name = some r ∧
      r.memory_usage = some mu ∧ r.cpu_usage = some cu := by
  obtain ⟨d, hd, hget⟩ := aggregate_lookup hagg hdist hp
  unfold podDict at hd
  cases hs : specFold p.containers [] with
  | error e => rw [hs] at hd; cases hd
  | ok d0 =>
    rw [hs, hf] at hd
    obtain ⟨r0, mu, cu, r, hr0, hmu, hcu, hur, hget2⟩ := usageFold_lookup hd hmd mc hmc
    have hmem := specFold_keys hs mc.name (by rw [hr0]; rfl)
    rcases hmem with habs | hmem
    · rw [show alGet ([] : CDict) mc.name = Option.none from rfl] at habs
      cases habs
    · have hfields := usageRecord_fields hur
      exact ⟨hmem, r, mu, cu, hmu, hcu, by rw [lookup3_eq hget]; exact hget2,
        hfields.1, hfields.2.1⟩

/-- Witness for the amended C5: usage for the declared container `app` lands
in its record (`cpu_usage = 250` from `256000u`, `memory_usage = 250`). -/
theorem usage_container_requires_spec_witness :
    aggregate c5wfetch c5wpods = Except.ok c5wrep ∧
    (∃ c ∈ ([⟨"app", some ⟨Option.none, some ⟨PyVal.str "250m", PyVal.none⟩⟩⟩] :
        List ContainerSpec), c.name = "app") ∧
    (lookup3 c5wrep "ns1" "web-0" "app").map (fun r => r.cpu_usage) =
      some (some (PyVal.int 250)) ∧
    (lookup3 c5wrep "ns1" "web-0" "app").map (fun r => r.memory_usage) =
      some (some (PyVal.int 250)) := by
  have h := usage_container_requires_spec c5wfetch c5wpods c5wrep (by decide)
    (by simp [podsDistinct, c5wpods])
    ⟨"ns1", "web-0", [⟨"app", some ⟨Option.none,
      some ⟨PyVal.str "250m", PyVal.none⟩⟩⟩]⟩ (by decide)
    [⟨"app", PyVal.str "256000u", PyVal.str "250Ki"⟩] rfl
    (by simp [metricsDistinct])
    ⟨"app", PyVal.str "256000u", PyVal.str "250Ki"⟩ (by decide)
  exact ⟨by decide, h.1, by decide, by decide⟩

/-- **C10.** Every container declared by the spec source has a record in the
final report (created as the empty dict of line 100 even when the container
carries no data at all), and that record yields one CSV row; when neither
source reports anything for it, the record — and hence its row — is
completely empty. -/
theorem every_declared_container_has_record (fetch : UsageSource) (pods : List Pod)
    (rep : Report) (hagg : aggregate fetch pods = Except.ok rep)
    (hdist : podsDistinct pods) (p : Pod) (hp : p ∈ pods)
    (hcd : containersDistinct p) (c : ContainerSpec) (hc : c ∈ p.containers) :
    ∃ r, lookup3 rep p.ns p.name c.name = some r ∧
      (p.ns, p.name, c.name, csvCells r) ∈ csvRows rep ∧
      (c.resources = Option.none →
        (∀ mcs, fetch p.ns p.name = some mcs → ∀ mc ∈ mcs, mc.name ≠ c.name) →
        r = {} ∧ csvCells r = List.replicate 10 Option.none) := by
  obtain ⟨d, hd, hget⟩ := aggregate_lookup hagg hdist hp
  unfold podDict at hd
  cases hs : specFold p.containers [] with
  | error e => rw [hs] at hd; cases hd
  | ok d0 =>
    rw [hs] at hd
    obtain ⟨r0, hr0, hget0⟩ := specFold_lookup hs hcd c hc
    have hempty : c.resources = Option.none → r0 = {} := by
      intro hres
      have : specRecord c = Except.ok {} := by
        unfold specRecord
        rw [hres]
      rw [this, Except.ok.injEq] at hr0
      exact hr0.symm
    cases hf : fetch p.ns p.name with
    | none =>
      rw [hf] at hd
      cases hd
      refine ⟨r0, by rw [lookup3_eq hget]; exact hget0, ?_, ?_⟩
      · exact csvRows_mem (by rw [lookup3_eq hget]; exact hget0)
      · intro hres _
        have h0 := hempty hres
        subst h0
        exact ⟨rfl, by decide⟩
    | some mcs =>
      rw [hf] at hd
      have hsome : (alGet d c.name).isSome := usageFold_keys hd c.name (by rw [hget0]; rfl)
      obtain ⟨r, hr⟩ := Option.isSome_iff_exists.mp hsome
      refine ⟨r, by rw [lookup3_eq hget]; exact hr, ?_, ?_⟩
      · exact csvRows_mem (by rw [lookup3_eq hget]; exact hr)
      · intro hres hnm
        have hpres := usageFold_preserves hd (fun mc hm => hnm mcs rfl mc hm)
        rw [hpres, hget0, Option.some.injEq] at hr
        subst hr
        have h0 := hempty hres
        subst h0
        exact ⟨rfl, by decide⟩

/-- Witness for C10: a container with no resources and no metrics still
produces a record and an all-empty CSV row. -/
theorem every_declared_container_has_record_witness :
    aggregate c10fetch c10pods = Except.ok c10rep ∧
    lookup3 c10rep "ns1" "web-0" "app" = some {} ∧
    ("ns1", "web-0", "app",
      csvCells {}) ∈ csvRows c10rep ∧
    csvCells {} = List.replicate 10 Option.none := by
  obtain ⟨r, hl, hrow, hempt⟩ := every_declared_container_has_record c10fetch c10pods
    c10rep (by decide) (by simp [podsDistinct, c10pods])
    ⟨"ns1", "web-0", [⟨"app", Option.none⟩]⟩ (by decide)
    (by simp [containersDistinct]) ⟨"app", Option.none⟩ (by decide)
  obtain ⟨rfl, hcells⟩ := hempt rfl (by intro mcs h; cases h)
  exact ⟨by decide, hl, hrow, hcells⟩

/-!
## Claim theorems: processing-order dependence (C9) and field rendering (C6)
-/

lemma podDictRev_eq_podDict {fetch : UsageSource} {p : Pod}
    (h : fetch p.ns p.name = Option.none ∨ fetch p.ns p.name = some []) :
    podDictRev fetch p = podDict fetch p := by
  have hL : podDictRev fetch p = specFold p.containers [] := by
    unfold podDictRev
    rcases h with h | h
    · rw [h]
    · rw [h]; rfl
  have hR : podDict fetch p = specFold p.containers [] := by
    unfold podDict
    cases hs : specFold p.containers [] with
    | error e => rfl
    | ok d =>
      rcases h with h | h
      · rw [h]
      · rw [h]; rfl
  rw [hL, hR]

lemma aggAuxRev_eq_aggAux {fetch : UsageSource} :
    ∀ {pods : List Pod},
    (∀ p ∈ pods, fetch p.ns p.name = Option.none ∨ fetch p.ns p.name = some []) →
    ∀ out, aggAuxRev fetch pods out = aggAux fetch pods out := by
  intro pods
  induction pods with
  | nil => intro _ out; rfl
  | cons p ps ih =>
    intro hf out
    have hpp : processPodRev fetch out p = processPod fetch out p := by
      unfold processPodRev processPod
      rw [podDictRev_eq_podDict (hf p (List.mem_cons_self p ps))]
    simp only [aggAuxRev, aggAux, hpp]
    cases processPod fetch out p with
    | error e => rfl
    | ok out' => exact ih (fun q hq => hf q (List.mem_cons_of_mem p hq)) out'

/-- **C9 (counterexample).** Order independence fails outright: processing
the usage source before the spec source indexes the still-empty container
dict at line 118 and faults with `KeyError` on the very first usage row,
while spec-then-usage succeeds. -/
theorem aggregate_order_dependent_counterexample :
    aggregateRev c9fetch c9pods ≠ aggregate c9fetch c9pods ∧
    aggregateRev c9fetch c9pods = Except.error PyErr.keyError := by decide

/-- **C9 (amended).** The two processing orders agree only when the usage
source contributes nothing: if every pod's metrics fetch fails or returns no
containers, usage-before-spec produces the identical report. -/
theorem aggregate_order_independent_without_usage (fetch : UsageSource)
    (pods : List Pod)
    (hf : ∀ p ∈ pods, fetch p.ns p.name = Option.none ∨ fetch p.ns p.name = some []) :
    aggregateRev fetch pods = aggregate fetch pods := by
  unfold aggregateRev aggregate
  exact aggAuxRev_eq_aggAux hf []

/-- Witness for the amended C9: with metrics unavailable everywhere the two
orders coincide on a nontrivial successful run. -/
theorem aggregate_order_independent_without_usage_witness :
    aggregateRev c9wfetch c9wpods = aggregate c9wfetch c9wpods ∧
    aggregateRev c9wfetch c9wpods ≠ Except.error PyErr.keyError :=
  ⟨aggregate_order_independent_without_usage c9wfetch c9wpods
     (fun _ _ => Or.inl rfl),
   by decide⟩

lemma jsonItems_mem_iff (r : Record) (k : String) (v : PyVal) :
    (k, v) ∈ jsonItems r ↔ fieldGet r k = some v := by
  unfold jsonItems fieldGet
  simp only [List.mem_append, jsonOpt_mem]
  by_cases h1 : k = "cpu_limits"
  · subst h1; simp
  by_cases h2 : k = "memory_limits"
  · subst h2; simp
  by_cases h3 : k = "cpu_requests"
  · subst h3; simp
  by_cases h4 : k = "memory_requests"
  · subst h4; simp
  by_cases h5 : k = "memory_usage"
  · subst h5; simp
  by_cases h6 : k = "cpu_usage"
  · subst h6; simp
  by_cases h7 : k = "cpu_requests_ratio"
  · subst h7; simp
  by_cases h8 : k = "cpu_limits_ratio"
  · subst h8; simp
  by_cases h9 : k = "memory_requests_ratio"
  · subst h9; simp
  by_cases h10 : k = "memory_limits_ratio"
  · subst h10; simp
  simp [h1, h2, h3, h4, h5, h6, h7, h8, h9, h10]

/-- **C6 (counterexample).** A limits dict that configures only `cpu` does
*not* leave `memory_limits` absent: line 106 stores the `None` that
`.get('memory')` returned (passed through the falsy branch of
`parse_memory`), and `json.dumps` then emits `"memory_limits": null`. -/
theorem absent_field_null_counterexample :
    aggregate c6fetch c6pods = Except.ok c6rep ∧
    lookup3 c6rep "n" "p" "c" = some c6rec ∧
    c6rec.memory_limits = some (PyVal.none) ∧
    ("memory_limits", PyVal.none) ∈ jsonItems c6rec := by decide

/-- **C6 (amended).** JSON rendering emits exactly the fields the record
holds — an absent field yields no key, a held `None` yields a `null` key —
and a field is truly absent only when the code never assigned it: a missing
`resources` block leaves the whole record empty, but a limits dict with a
missing `memory` key assigns `memory_limits = None` rather than leaving it
absent. -/
theorem absent_fields_omitted (r : Record) (k : String) (v : PyVal)
    (c : ContainerSpec) :
    ((k, v) ∈ jsonItems r ↔ fieldGet r k = some v) ∧
    (c.resources = Option.none → specRecord c = Except.ok {}) ∧
    (∀ res lim r', c.resources = some res → res.limits = some lim →
      lim.memory = PyVal.none → specRecord c = Except.ok r' →
      r'.memory_limits = some (PyVal.none)) := by
  refine ⟨jsonItems_mem_iff r k v, ?_, ?_⟩
  · intro hres
    unfold specRecord
    rw [hres]
  · intro res lim r' hres hlim hmem hr'
    unfold specRecord at hr'
    simp only [hres, hlim] at hr'
    cases hc : parse_cpu lim.cpu with
    | error e => simp only [hc] at hr'; cases hr'
    | ok cl =>
      have hpm : parse_memory (PyVal.none) = Except.ok (PyVal.none) := by decide
      rw [hmem] at hr'
      simp only [hc, hpm] at hr'
      cases hreq : res.requests with
      | none =>
        simp only [hreq, Except.ok.injEq] at hr'
        subst hr'
        rfl
      | some req =>
        simp only [hreq] at hr'
        cases hcr : parse_cpu req.cpu with
        | error e => simp only [hcr] at hr'; cases hr'
        | ok cr =>
          simp only [hcr] at hr'
          cases hmr : parse_memory req.memory with
          | error e => simp only [hmr] at hr'; cases hr'
          | ok mr =>
            simp only [hmr, Except.ok.injEq] at hr'
            subst hr'
            rfl

/-- Witness for the amended C6: the key/value iff at the counterexample
record, and the empty record from an absent resources block. -/
theorem absent_fields_omitted_witness :
    (("memory_limits", PyVal.none) ∈ jsonItems c6rec ↔
      fieldGet c6rec "memory_limits" = some (PyVal.none)) ∧
    specRecord ⟨"c", Option.none⟩ = Except.ok {} :=
  ⟨(absent_fields_omitted c6rec "memory_limits" PyVal.none ⟨"c", Option.none⟩).1,
   (absent_fields_omitted c6rec "memory_limits" PyVal.none
      ⟨"c", Option.none⟩).2.1 rfl⟩

end Requestatron
